import Mathlib

/-!
Verification development for the timestamp-rebasement engine
(`rebase_timestamps.py`).

Python strings are modelled as `List Char`; `datetime` values as a record
of numeric fields; the filesystem effects of the rebaser as an explicit
step sequence over a small filesystem state.  All definitions are
executable.
-/

set_option maxRecDepth 4000

/-! ## Proleptic Gregorian calendar (CPython `datetime` internals)

`datetime.date` arithmetic is defined through `toordinal`/`fromordinal`
over the proleptic Gregorian calendar, with day 1 = January 1 of year 1
and `_MAXORDINAL = 3652059` (December 31 of year 9999).
-/

/-- CPython `datetime._is_leap`: `year % 4 == 0 and (year % 100 != 0 or year % 400 == 0)`. -/
def isLeap (y : Nat) : Bool :=
  decide (y % 4 = 0 ∧ (y % 100 ≠ 0 ∨ y % 400 = 0))

/-- CPython `_DAYS_IN_MONTH` plus the February leap adjustment
(`datetime._days_in_month`). Months are numbered 1..12. -/
def daysInMonth (y m : Nat) : Nat :=
  if m = 2 then (if isLeap y then 29 else 28)
  else if m = 4 ∨ m = 6 ∨ m = 9 ∨ m = 11 then 30
  else 31

/-- CPython `datetime._days_before_year`:
`y = year - 1; return y*365 + y//4 - y//100 + y//400`. -/
def daysBeforeYear (y : Nat) : Nat :=
  (y - 1) * 365 + (y - 1) / 4 - (y - 1) / 100 + (y - 1) / 400

/-- Days in a calendar year (365, or 366 in a leap year). -/
def daysInYear (y : Nat) : Nat :=
  if isLeap y then 366 else 365

/-- CPython `_DAYS_BEFORE_MONTH` table (days in the year preceding the
first day of the given month, ignoring leap days). -/
def daysBeforeMonthTab : Nat → Nat
  | 1 => 0 | 2 => 31 | 3 => 59 | 4 => 90 | 5 => 120 | 6 => 151
  | 7 => 181 | 8 => 212 | 9 => 243 | 10 => 273 | 11 => 304 | 12 => 334
  | _ => 0

/-- CPython `datetime._days_before_month`:
`_DAYS_BEFORE_MONTH[month] + (month > 2 and _is_leap(year))`. -/
def daysBeforeMonth (y m : Nat) : Nat :=
  daysBeforeMonthTab m + (if 2 < m ∧ isLeap y then 1 else 0)

/-- CPython `datetime._ymd2ord` (`date.toordinal`):
`_days_before_year(year) + _days_before_month(year, month) + day`. -/
def toOrdinal (y m d : Nat) : Nat :=
  daysBeforeYear y + daysBeforeMonth y m + d

/-- `date.max.toordinal()` in CPython (`_MAXORDINAL`), i.e. 9999-12-31. -/
def maxOrdinal : Nat := 3652059

/-- Year extraction step of `date.fromordinal`: starting from year `y`
and a 1-based remaining day count `n`, peel off whole years.  The fuel
argument makes the recursion structural; `fuel = n` is always enough
since every step removes at least 365 days. -/
def yearSplit : Nat → Nat → Nat → Nat × Nat
  | 0, y, n => (y, n)
  | fuel + 1, y, n =>
    if daysInYear y < n then yearSplit fuel (y + 1) (n - daysInYear y) else (y, n)

/-- Month extraction step of `date.fromordinal`: starting from month `m`
and a 1-based day-of-year `n`, peel off whole months (months stop at 12). -/
def monthSplit (y : Nat) : Nat → Nat → Nat → Nat × Nat
  | 0, m, n => (m, n)
  | fuel + 1, m, n =>
    if m < 12 ∧ daysInMonth y m < n then monthSplit y fuel (m + 1) (n - daysInMonth y m)
    else (m, n)

/-- `date.fromordinal` (CPython `datetime._ord2ymd`): the inverse of
`toOrdinal` on ordinals `1 .. maxOrdinal`, proved below
(`toOrdinal_fromOrdinal`). -/
def fromOrdinal (n : Nat) : Nat × Nat × Nat :=
  ((yearSplit n 1 n).1,
   (monthSplit (yearSplit n 1 n).1 12 1 (yearSplit n 1 n).2).1,
   (monthSplit (yearSplit n 1 n).1 12 1 (yearSplit n 1 n).2).2)

theorem isLeap_iff (y : Nat) :
    isLeap y = true ↔ (y % 4 = 0 ∧ (y % 100 ≠ 0 ∨ y % 400 = 0)) := by
  unfold isLeap
  exact decide_eq_true_iff

theorem isLeap_false_iff (y : Nat) :
    isLeap y = false ↔ ¬ (y % 4 = 0 ∧ (y % 100 ≠ 0 ∨ y % 400 = 0)) := by
  unfold isLeap
  exact decide_eq_false_iff_not

theorem daysInYear_pos (y : Nat) : 365 ≤ daysInYear y := by
  unfold daysInYear; split <;> omega

theorem daysInMonth_pos (y m : Nat) : 1 ≤ daysInMonth y m := by
  unfold daysInMonth
  split
  · split <;> omega
  · split <;> omega

theorem daysBeforeYear_succ (y : Nat) (hy : 1 ≤ y) :
    daysBeforeYear (y + 1) = daysBeforeYear y + daysInYear y := by
  have e4 := Nat.succ_div (y - 1) 4
  have e100 := Nat.succ_div (y - 1) 100
  have e400 := Nat.succ_div (y - 1) 400
  have hy1 : y - 1 + 1 = y := by omega
  rw [hy1] at e4 e100 e400
  have hba : (y - 1) / 100 ≤ (y - 1) / 4 := Nat.div_le_div_left (by norm_num) (by norm_num)
  have hcb : (y - 1) / 400 ≤ (y - 1) / 100 := Nat.div_le_div_left (by norm_num) (by norm_num)
  have hDIY : daysInYear y = if isLeap y then 366 else 365 := rfl
  have hd4 : ((4:Nat) ∣ y) ↔ y % 4 = 0 := Nat.dvd_iff_mod_eq_zero
  have hd100 : ((100:Nat) ∣ y) ↔ y % 100 = 0 := Nat.dvd_iff_mod_eq_zero
  have hd400 : ((400:Nat) ∣ y) ↔ y % 400 = 0 := Nat.dvd_iff_mod_eq_zero
  unfold daysBeforeYear
  simp only [Nat.add_sub_cancel]
  rw [e4, e100, e400]
  by_cases h4 : (4:Nat) ∣ y
  · by_cases h100 : (100:Nat) ∣ y
    · by_cases h400 : (400:Nat) ∣ y
      · have hL : isLeap y = true := by
          rw [isLeap_iff]
          constructor
          · exact hd4.mp h4
          · exact Or.inr (hd400.mp h400)
        rw [if_pos h4, if_pos h100, if_pos h400, hDIY, hL]
        simp only [if_true]
        generalize (y - 1) / 4 = A at *
        generalize (y - 1) / 100 = B at *
        generalize (y - 1) / 400 = C at *
        omega
      · have hL : isLeap y = false := by
          have := hd100.mp h100
          have h400m : ¬ y % 400 = 0 := fun hc => h400 (hd400.mpr hc)
          unfold isLeap
          simp only [decide_eq_false_iff_not]
          tauto
        rw [if_pos h4, if_pos h100, if_neg h400, hDIY, hL]
        simp only [Bool.false_eq_true, if_false]
        generalize (y - 1) / 4 = A at *
        generalize (y - 1) / 100 = B at *
        generalize (y - 1) / 400 = C at *
        omega
    · have h400 : ¬ (400:Nat) ∣ y := fun hc => h100 (dvd_trans (by norm_num) hc)
      have hL : isLeap y = true := by
        rw [isLeap_iff]
        have h100m : ¬ y % 100 = 0 := fun hc => h100 (hd100.mpr hc)
        exact ⟨hd4.mp h4, Or.inl h100m⟩
      rw [if_pos h4, if_neg h100, if_neg h400, hDIY, hL]
      simp only [if_true]
      generalize (y - 1) / 4 = A at *
      generalize (y - 1) / 100 = B at *
      generalize (y - 1) / 400 = C at *
      omega
  · have h100 : ¬ (100:Nat) ∣ y := fun hc => h4 (dvd_trans (by norm_num) hc)
    have h400 : ¬ (400:Nat) ∣ y := fun hc => h4 (dvd_trans (by norm_num) hc)
    have hL : isLeap y = false := by
      have h4m : ¬ y % 4 = 0 := fun hc => h4 (hd4.mpr hc)
      unfold isLeap
      simp only [decide_eq_false_iff_not]
      tauto
    rw [if_neg h4, if_neg h100, if_neg h400, hDIY, hL]
    simp only [Bool.false_eq_true, if_false]
    generalize (y - 1) / 4 = A at *
    generalize (y - 1) / 100 = B at *
    generalize (y - 1) / 400 = C at *
    omega

theorem daysBeforeYear_mono {a b : Nat} (h : a ≤ b) :
    daysBeforeYear a ≤ daysBeforeYear b := by
  unfold daysBeforeYear
  have h4 : (a - 1) / 4 ≤ (b - 1) / 4 := Nat.div_le_div_right (by omega)
  have h1 : (a - 1) / 100 ≤ (b - 1) / 100 := Nat.div_le_div_right (by omega)
  have h2 : (a - 1) / 400 ≤ (b - 1) / 400 := Nat.div_le_div_right (by omega)
  omega

theorem daysBeforeYear_ten_thousand : daysBeforeYear 10000 = 3652059 := by
  unfold daysBeforeYear; norm_num

theorem daysBeforeMonth_succ (y m : Nat) (h1 : 1 ≤ m) (h2 : m ≤ 11) :
    daysBeforeMonth y (m + 1) = daysBeforeMonth y m + daysInMonth y m := by
  unfold daysBeforeMonth daysInMonth daysBeforeMonthTab
  cases h : isLeap y <;> interval_cases m <;> simp

theorem daysBeforeMonth_twelve (y : Nat) :
    daysBeforeMonth y 12 + daysInMonth y 12 = daysInYear y := by
  unfold daysBeforeMonth daysInMonth daysBeforeMonthTab daysInYear
  cases h : isLeap y <;> simp

theorem daysBeforeMonth_one (y : Nat) : daysBeforeMonth y 1 = 0 := by
  unfold daysBeforeMonth daysBeforeMonthTab
  simp

theorem yearSplit_spec :
    ∀ fuel y n y2 n2, 1 ≤ y → 1 ≤ n → n ≤ fuel →
      yearSplit fuel y n = (y2, n2) →
      daysBeforeYear y2 + n2 = daysBeforeYear y + n ∧
      1 ≤ n2 ∧ n2 ≤ daysInYear y2 ∧ y ≤ y2 := by
  intro fuel
  induction fuel with
  | zero => intro y n y2 n2 _ h1 h2 _; omega
  | succ fuel ih =>
    intro y n y2 n2 hy h1 h2 heq
    unfold yearSplit at heq
    by_cases h : daysInYear y < n
    · rw [if_pos h] at heq
      have h365 := daysInYear_pos y
      have spec := ih (y + 1) (n - daysInYear y) y2 n2 (by omega) (by omega) (by omega) heq
      have hstep := daysBeforeYear_succ y hy
      exact ⟨by omega, spec.2.1, spec.2.2.1, by omega⟩
    · rw [if_neg h] at heq
      cases heq
      exact ⟨rfl, h1, by omega, Nat.le_refl y⟩

theorem monthSplit_spec :
    ∀ fuel y m n m2 d2, 1 ≤ m → m ≤ 12 → 12 ≤ m + fuel → 1 ≤ n →
      daysBeforeMonth y m + n ≤ daysInYear y →
      monthSplit y fuel m n = (m2, d2) →
      daysBeforeMonth y m2 + d2 = daysBeforeMonth y m + n ∧
      1 ≤ d2 ∧ d2 ≤ daysInMonth y m2 ∧ 1 ≤ m2 ∧ m2 ≤ 12 := by
  intro fuel
  induction fuel with
  | zero =>
    intro y m n m2 d2 hm1 hm2 hf hn hbound heq
    have hm : m = 12 := by omega
    subst hm
    unfold monthSplit at heq
    cases heq
    have h12 := daysBeforeMonth_twelve y
    exact ⟨rfl, hn, by omega, by omega, by omega⟩
  | succ fuel ih =>
    intro y m n m2 d2 hm1 hm2 hf hn hbound heq
    unfold monthSplit at heq
    by_cases h : m < 12 ∧ daysInMonth y m < n
    · rw [if_pos h] at heq
      have hstep := daysBeforeMonth_succ y m hm1 (by omega)
      have spec := ih y (m + 1) (n - daysInMonth y m) m2 d2 (by omega) (by omega) (by omega)
        (by omega) (by omega) heq
      exact ⟨by omega, spec.2.1, spec.2.2.1, spec.2.2.2.1, spec.2.2.2.2⟩
    · rw [if_neg h] at heq
      cases heq
      refine ⟨rfl, hn, ?_, hm1, hm2⟩
      by_cases hm12 : m < 12
      · have : ¬ daysInMonth y m < n := by tauto
        omega
      · have hm : m = 12 := by omega
        subst hm
        have h12 := daysBeforeMonth_twelve y
        omega

/-- `fromOrdinal` is a right inverse of `toOrdinal` and always produces a
valid calendar date (for ordinals ≥ 1). -/
theorem toOrdinal_fromOrdinal (n y m d : Nat) (hn : 1 ≤ n)
    (heq : fromOrdinal n = (y, m, d)) :
    toOrdinal y m d = n ∧ 1 ≤ y ∧ 1 ≤ m ∧ m ≤ 12 ∧ 1 ≤ d ∧ d ≤ daysInMonth y m := by
  obtain ⟨y1, n1, hys⟩ : ∃ y1 n1, yearSplit n 1 n = (y1, n1) :=
    ⟨(yearSplit n 1 n).1, (yearSplit n 1 n).2, rfl⟩
  obtain ⟨m1, d1, hms⟩ : ∃ m1 d1, monthSplit y1 12 1 n1 = (m1, d1) :=
    ⟨(monthSplit y1 12 1 n1).1, (monthSplit y1 12 1 n1).2, rfl⟩
  have hyspec := yearSplit_spec n 1 n y1 n1 (by omega) hn (Nat.le_refl n) hys
  have hb1 : daysBeforeYear 1 = 0 := by unfold daysBeforeYear; norm_num
  have hbm1 := daysBeforeMonth_one y1
  have hmspec := monthSplit_spec 12 y1 1 n1 m1 d1 (by omega) (by omega) (by omega)
    hyspec.2.1 (by omega) hms
  unfold fromOrdinal at heq
  rw [hys] at heq
  simp only at heq
  rw [hms] at heq
  simp only [Prod.mk.injEq] at heq
  obtain ⟨hy, hm, hd⟩ := heq
  subst hy; subst hm; subst hd
  unfold toOrdinal
  exact ⟨by omega, by omega, hmspec.2.2.2.1, hmspec.2.2.2.2, hmspec.2.1, hmspec.2.2.1⟩

/-- Within the representable ordinal range the year stays ≤ 9999. -/
theorem year_le_of_ordinal_le {y m d : Nat} (hd : 1 ≤ d)
    (h : toOrdinal y m d ≤ maxOrdinal) : y ≤ 9999 := by
  by_contra hy
  have h1 : daysBeforeYear 10000 ≤ daysBeforeYear y := daysBeforeYear_mono (by omega)
  have h2 := daysBeforeYear_ten_thousand
  unfold toOrdinal at h
  unfold maxOrdinal at h
  omega

/-! ## Timestamp codec

`rebase_timestamp` and `detect_date_range` both parse with
`datetime.strptime(s.strip(), '%Y-%m-%d %H:%M:%S')` and re-emit with
`strftime('%Y-%m-%d %H:%M:%S')`.  Python strings are modelled as
`List Char` (ASCII digits; `re`'s unicode digits are out of scope).

CPython `_strptime.TimeRE` compiles the directives to the regex pieces
  `%Y ↦ \d\d\d\d`   `%m ↦ 1[0-2]|0[1-9]|[1-9]`   `%d ↦ 3[01]|[12]\d|0[1-9]|[1-9]`
  `%H ↦ 2[0-3]|[0-1]\d|\d`   `%M, %S ↦ [0-5]\d|\d`
with literal `-`/`:` separators, the format's space matching `\s+`, an
exact-end check ("unconverted data remains"), and then constructs a
`datetime`, which validates the calendar date (rejecting e.g. Feb 30 and
year 0).  The functions below implement exactly that recognition; for
each field the greedy two-digit alternative is attempted first, which is
equivalent to the regex because every field is followed by a character
that can never be a digit (a separator or end of string).
-/

/-- Numeric value of an ASCII digit character. -/
def dval (c : Char) : Nat := c.toNat - 48

/-- ASCII digit test (regex `\d` restricted to ASCII). -/
def isD (c : Char) : Bool := decide (48 ≤ c.toNat ∧ c.toNat ≤ 57)

/-- `%Y`: exactly four digits. -/
def takeYear : List Char → Option (Nat × List Char)
  | c1 :: c2 :: c3 :: c4 :: rest =>
    if isD c1 ∧ isD c2 ∧ isD c3 ∧ isD c4 then
      some (((dval c1 * 10 + dval c2) * 10 + dval c3) * 10 + dval c4, rest)
    else none
  | _ => none

/-- `%m`: regex `1[0-2]|0[1-9]|[1-9]`. -/
def takeMonth : List Char → Option (Nat × List Char)
  | [] => none
  | c :: cs =>
    if c = '1' then
      match cs with
      | c2 :: cs2 =>
        if c2 = '0' ∨ c2 = '1' ∨ c2 = '2' then some (10 + dval c2, cs2) else some (1, cs)
      | [] => some (1, [])
    else if c = '0' then
      match cs with
      | c2 :: cs2 => if 49 ≤ c2.toNat ∧ c2.toNat ≤ 57 then some (dval c2, cs2) else none
      | [] => none
    else if 50 ≤ c.toNat ∧ c.toNat ≤ 57 then some (dval c, cs)
    else none

/-- `%d`: regex `3[01]|[12]\d|0[1-9]|[1-9]`. -/
def takeDay : List Char → Option (Nat × List Char)
  | [] => none
  | c :: cs =>
    if c = '3' then
      match cs with
      | c2 :: cs2 => if c2 = '0' ∨ c2 = '1' then some (30 + dval c2, cs2) else some (3, cs)
      | [] => some (3, [])
    else if c = '1' ∨ c = '2' then
      match cs with
      | c2 :: cs2 => if isD c2 then some (dval c * 10 + dval c2, cs2) else some (dval c, cs)
      | [] => some (dval c, [])
    else if c = '0' then
      match cs with
      | c2 :: cs2 => if 49 ≤ c2.toNat ∧ c2.toNat ≤ 57 then some (dval c2, cs2) else none
      | [] => none
    else if 52 ≤ c.toNat ∧ c.toNat ≤ 57 then some (dval c, cs)
    else none

/-- `%H`: regex `2[0-3]|[0-1]\d|\d`. -/
def takeHour : List Char → Option (Nat × List Char)
  | [] => none
  | c :: cs =>
    if c = '2' then
      match cs with
      | c2 :: cs2 =>
        if 48 ≤ c2.toNat ∧ c2.toNat ≤ 51 then some (20 + dval c2, cs2) else some (2, cs)
      | [] => some (2, [])
    else if c = '0' ∨ c = '1' then
      match cs with
      | c2 :: cs2 => if isD c2 then some (dval c * 10 + dval c2, cs2) else some (dval c, cs)
      | [] => some (dval c, [])
    else if isD c then some (dval c, cs)
    else none

/-- `%M` and `%S`: regex `[0-5]\d|\d`. -/
def takeMinSec : List Char → Option (Nat × List Char)
  | [] => none
  | c :: cs =>
    if isD c then
      match cs with
      | c2 :: cs2 =>
        if c.toNat ≤ 53 ∧ isD c2 then some (dval c * 10 + dval c2, cs2) else some (dval c, cs)
      | [] => some (dval c, [])
    else none

/-- A literal separator character in the format. -/
def takeLit (ch : Char) : List Char → Option (List Char)
  | c :: cs => if c = ch then some cs else none
  | [] => none

/-- Whitespace in the format matches `\s+` (one or more whitespace). -/
def takeWs : List Char → Option (List Char)
  | c :: cs => if c.isWhitespace then some (cs.dropWhile Char.isWhitespace) else none
  | [] => none

/-- One parsed timestamp value (a naive `datetime`). -/
structure DateTime where
  year : Nat
  month : Nat
  day : Nat
  hour : Nat
  minute : Nat
  second : Nat
deriving DecidableEq

/-- `datetime.strptime(s, '%Y-%m-%d %H:%M:%S')` on an exact string:
regex recognition, the "unconverted data remains" check and the
`datetime` constructor validation (year ≥ 1, day within month). -/
def strptimeYmdHms (cs : List Char) : Option DateTime :=
  (takeYear cs).bind fun p1 =>
  (takeLit '-' p1.2).bind fun r1 =>
  (takeMonth r1).bind fun p2 =>
  (takeLit '-' p2.2).bind fun r2 =>
  (takeDay r2).bind fun p3 =>
  (takeWs p3.2).bind fun r3 =>
  (takeHour r3).bind fun p4 =>
  (takeLit ':' p4.2).bind fun r4 =>
  (takeMinSec r4).bind fun p5 =>
  (takeLit ':' p5.2).bind fun r5 =>
  (takeMinSec r5).bind fun p6 =>
  if p6.2 = [] ∧ 1 ≤ p1.1 ∧ p3.1 ≤ daysInMonth p1.1 p2.1 then
    some ⟨p1.1, p2.1, p3.1, p4.1, p5.1, p6.1⟩
  else none

/-- Python `str.strip()`: remove leading and trailing whitespace. -/
def pyStrip (cs : List Char) : List Char :=
  ((cs.dropWhile Char.isWhitespace).reverse.dropWhile Char.isWhitespace).reverse

/-- The parse used by both the rebaser and the scanner:
`datetime.strptime(value.strip(), '%Y-%m-%d %H:%M:%S')`. -/
def parseTimestamp (cs : List Char) : Option DateTime :=
  strptimeYmdHms (pyStrip cs)

/-- The ASCII digit character of `n % 10` (one position of `%0kd`). -/
def digitChar (n : Nat) : Char :=
  match n % 10 with
  | 0 => '0' | 1 => '1' | 2 => '2' | 3 => '3' | 4 => '4'
  | 5 => '5' | 6 => '6' | 7 => '7' | 8 => '8' | _ => '9'

/-- The canonical zero-padded rendering `YYYY-MM-DD HH:MM:SS` that the
spec describes ("accepts exactly the format `YYYY-MM-DD HH:MM:SS`"):
four year digits, two digits for every other field. -/
def canonicalYmdHms (dt : DateTime) : List Char :=
  [digitChar (dt.year / 1000), digitChar (dt.year / 100), digitChar (dt.year / 10),
   digitChar dt.year, '-', digitChar (dt.month / 10), digitChar dt.month, '-',
   digitChar (dt.day / 10), digitChar dt.day, ' ', digitChar (dt.hour / 10),
   digitChar dt.hour, ':', digitChar (dt.minute / 10), digitChar dt.minute, ':',
   digitChar (dt.second / 10), digitChar dt.second]

/-- The year as emitted by `strftime`'s `%Y` on the reference platform
(glibc): minimal decimal digits, so years 1-999 appear without
zero-padding (`datetime(4, 2, 29, ...).strftime('%Y-...')` begins with
`'4-'`). -/
def yearDigits (y : Nat) : List Char :=
  if y < 10 then [digitChar y]
  else if y < 100 then [digitChar (y / 10), digitChar y]
  else if y < 1000 then [digitChar (y / 100), digitChar (y / 10), digitChar y]
  else [digitChar (y / 1000), digitChar (y / 100), digitChar (y / 10), digitChar y]

/-- `strftime('%Y-%m-%d %H:%M:%S')` as the program runs it: the year is
unpadded below 1000, every other field is zero-padded to two digits.
Coincides with the canonical rendering exactly when the year has four
digits (`formatTimestamp_eq_canonical`). -/
def formatTimestamp (dt : DateTime) : List Char :=
  yearDigits dt.year ++
  ['-', digitChar (dt.month / 10), digitChar dt.month, '-',
   digitChar (dt.day / 10), digitChar dt.day, ' ', digitChar (dt.hour / 10),
   digitChar dt.hour, ':', digitChar (dt.minute / 10), digitChar dt.minute, ':',
   digitChar (dt.second / 10), digitChar dt.second]

theorem formatTimestamp_eq_canonical {dt : DateTime} (hy : 1000 ≤ dt.year) :
    formatTimestamp dt = canonicalYmdHms dt := by
  unfold formatTimestamp yearDigits canonicalYmdHms
  rw [if_neg (by omega), if_neg (by omega), if_neg (by omega)]
  rfl

theorem formatTimestamp_ne_nil (dt : DateTime) : formatTimestamp dt ≠ [] := by
  unfold formatTimestamp
  simp

/-- Validity of a `datetime` value (the `datetime` constructor's checks,
restricted to what `strptime` can produce). -/
def validDT (dt : DateTime) : Prop :=
  1 ≤ dt.year ∧ dt.year ≤ 9999 ∧ 1 ≤ dt.month ∧ dt.month ≤ 12 ∧
  1 ≤ dt.day ∧ dt.day ≤ daysInMonth dt.year dt.month ∧
  dt.hour ≤ 23 ∧ dt.minute ≤ 59 ∧ dt.second ≤ 59

instance (dt : DateTime) : Decidable (validDT dt) := by
  unfold validDT
  infer_instance

theorem toNat_digitChar (n : Nat) : (digitChar n).toNat = 48 + n % 10 := by
  have h : n % 10 = 0 ∨ n % 10 = 1 ∨ n % 10 = 2 ∨ n % 10 = 3 ∨ n % 10 = 4 ∨ n % 10 = 5 ∨
      n % 10 = 6 ∨ n % 10 = 7 ∨ n % 10 = 8 ∨ n % 10 = 9 := by omega
  unfold digitChar
  rcases h with h|h|h|h|h|h|h|h|h|h <;> rw [h] <;> rfl

theorem isD_digitChar (n : Nat) : isD (digitChar n) = true := by
  unfold isD
  rw [decide_eq_true_iff]
  have := toNat_digitChar n
  omega

theorem dval_digitChar (n : Nat) : dval (digitChar n) = n % 10 := by
  unfold dval
  have := toNat_digitChar n
  omega

theorem digitChar_not_ws (n : Nat) : (digitChar n).isWhitespace = false := by
  have h : n % 10 = 0 ∨ n % 10 = 1 ∨ n % 10 = 2 ∨ n % 10 = 3 ∨ n % 10 = 4 ∨ n % 10 = 5 ∨
      n % 10 = 6 ∨ n % 10 = 7 ∨ n % 10 = 8 ∨ n % 10 = 9 := by omega
  unfold digitChar
  rcases h with h|h|h|h|h|h|h|h|h|h <;> rw [h] <;> decide

theorem dval_le_of_isD {c : Char} (h : isD c = true) : dval c ≤ 9 := by
  unfold isD at h
  rw [decide_eq_true_iff] at h
  unfold dval
  omega

theorem takeYear_bound {cs : List Char} {y : Nat} {rest : List Char}
    (h : takeYear cs = some (y, rest)) : y ≤ 9999 := by
  unfold takeYear at h
  split at h
  · split at h
    · rename_i c1 c2 c3 c4 rest2 hcond
      injection h with h2
      have he := congrArg Prod.fst h2
      simp only at he
      have b1 := dval_le_of_isD hcond.1
      have b2 := dval_le_of_isD hcond.2.1
      have b3 := dval_le_of_isD hcond.2.2.1
      have b4 := dval_le_of_isD hcond.2.2.2
      omega
    · cases h
  · cases h

theorem takeMonth_bound {cs : List Char} {m : Nat} {rest : List Char}
    (h : takeMonth cs = some (m, rest)) : 1 ≤ m ∧ m ≤ 12 := by
  unfold takeMonth at h
  split at h
  · cases h
  · rename_i c cs2
    split at h
    · rename_i hc1
      split at h
      · rename_i c2 cs3
        split at h
        · rename_i hc2
          injection h with h2
          have he := congrArg Prod.fst h2
          simp only at he
          rcases hc2 with h0 | h1 | h2'
          · subst h0; rw [show dval '0' = 0 from rfl] at he; omega
          · subst h1; rw [show dval '1' = 1 from rfl] at he; omega
          · subst h2'; rw [show dval '2' = 2 from rfl] at he; omega
        · injection h with h2
          have he := congrArg Prod.fst h2
          simp only at he
          omega
      · injection h with h2
        have he := congrArg Prod.fst h2
        simp only at he
        omega
    · split at h
      · rename_i hc0
        split at h
        · rename_i c2 cs3
          split at h
          · rename_i hc2
            injection h with h2
            have he := congrArg Prod.fst h2
            simp only at he
            unfold dval at he
            omega
          · cases h
        · cases h
      · split at h
        · rename_i hrange
          injection h with h2
          have he := congrArg Prod.fst h2
          simp only at he
          unfold dval at he
          omega
        · cases h

theorem takeDay_bound {cs : List Char} {d : Nat} {rest : List Char}
    (h : takeDay cs = some (d, rest)) : 1 ≤ d ∧ d ≤ 31 := by
  unfold takeDay at h
  split at h
  · cases h
  · rename_i c cs2
    split at h
    · rename_i hc3
      split at h
      · rename_i c2 cs3
        split at h
        · rename_i hc2
          injection h with h2
          have he := congrArg Prod.fst h2
          simp only at he
          rcases hc2 with h0 | h1
          · subst h0; rw [show dval '0' = 0 from rfl] at he; omega
          · subst h1; rw [show dval '1' = 1 from rfl] at he; omega
        · injection h with h2
          have he := congrArg Prod.fst h2
          simp only at he
          omega
      · injection h with h2
        have he := congrArg Prod.fst h2
        simp only at he
        omega
    · split at h
      · rename_i hc12
        have hv : dval c = 1 ∨ dval c = 2 := by
          rcases hc12 with h1 | h2
          · subst h1; left; rfl
          · subst h2; right; rfl
        split at h
        · rename_i c2 cs3
          split at h
          · rename_i hd2
            injection h with h2
            have he := congrArg Prod.fst h2
            simp only at he
            have b2 := dval_le_of_isD hd2
            omega
          · injection h with h2
            have he := congrArg Prod.fst h2
            simp only at he
            omega
        · injection h with h2
          have he := congrArg Prod.fst h2
          simp only at he
          omega
      · split at h
        · rename_i hc0
          split at h
          · rename_i c2 cs3
            split at h
            · rename_i hc2
              injection h with h2
              have he := congrArg Prod.fst h2
              simp only at he
              unfold dval at he
              omega
            · cases h
          · cases h
        · split at h
          · rename_i hrange
            injection h with h2
            have he := congrArg Prod.fst h2
            simp only at he
            unfold dval at he
            omega
          · cases h

theorem takeHour_bound {cs : List Char} {x : Nat} {rest : List Char}
    (h : takeHour cs = some (x, rest)) : x ≤ 23 := by
  unfold takeHour at h
  split at h
  · cases h
  · rename_i c cs2
    split at h
    · rename_i hc2
      split at h
      · rename_i c2 cs3
        split at h
        · rename_i hr
          injection h with h2
          have he := congrArg Prod.fst h2
          simp only at he
          unfold dval at he
          omega
        · injection h with h2
          have he := congrArg Prod.fst h2
          simp only at he
          omega
      · injection h with h2
        have he := congrArg Prod.fst h2
        simp only at he
        omega
    · split at h
      · rename_i hc01
        have hv : dval c = 0 ∨ dval c = 1 := by
          rcases hc01 with h1 | h2
          · subst h1; left; rfl
          · subst h2; right; rfl
        split at h
        · rename_i c2 cs3
          split at h
          · rename_i hd2
            injection h with h2
            have he := congrArg Prod.fst h2
            simp only at he
            have b2 := dval_le_of_isD hd2
            omega
          · injection h with h2
            have he := congrArg Prod.fst h2
            simp only at he
            omega
        · injection h with h2
          have he := congrArg Prod.fst h2
          simp only at he
          omega
      · split at h
        · rename_i hd
          injection h with h2
          have he := congrArg Prod.fst h2
          simp only at he
          have b := dval_le_of_isD hd
          omega
        · cases h

theorem takeMinSec_bound {cs : List Char} {x : Nat} {rest : List Char}
    (h : takeMinSec cs = some (x, rest)) : x ≤ 59 := by
  unfold takeMinSec at h
  split at h
  · cases h
  · rename_i c cs2
    split at h
    · rename_i hd
      split at h
      · rename_i c2 cs3
        split at h
        · rename_i hr
          injection h with h2
          have he := congrArg Prod.fst h2
          simp only at he
          have hr2 := hr.2
          unfold isD at hd hr2
          rw [decide_eq_true_iff] at hd hr2
          unfold dval at he
          omega
        · injection h with h2
          have he := congrArg Prod.fst h2
          simp only at he
          have b := dval_le_of_isD hd
          omega
      · injection h with h2
        have he := congrArg Prod.fst h2
        simp only at he
        have b := dval_le_of_isD hd
        omega
    · cases h

/-- Soundness: whatever `strptime` accepts is a valid calendar timestamp. -/
theorem strptime_sound {cs : List Char} {dt : DateTime}
    (h : strptimeYmdHms cs = some dt) : validDT dt := by
  unfold strptimeYmdHms at h
  rw [Option.bind_eq_some] at h
  obtain ⟨p1, hp1, h⟩ := h
  rw [Option.bind_eq_some] at h
  obtain ⟨r1, hr1, h⟩ := h
  rw [Option.bind_eq_some] at h
  obtain ⟨p2, hp2, h⟩ := h
  rw [Option.bind_eq_some] at h
  obtain ⟨r2, hr2, h⟩ := h
  rw [Option.bind_eq_some] at h
  obtain ⟨p3, hp3, h⟩ := h
  rw [Option.bind_eq_some] at h
  obtain ⟨r3, hr3, h⟩ := h
  rw [Option.bind_eq_some] at h
  obtain ⟨p4, hp4, h⟩ := h
  rw [Option.bind_eq_some] at h
  obtain ⟨r4, hr4, h⟩ := h
  rw [Option.bind_eq_some] at h
  obtain ⟨p5, hp5, h⟩ := h
  rw [Option.bind_eq_some] at h
  obtain ⟨r5, hr5, h⟩ := h
  rw [Option.bind_eq_some] at h
  obtain ⟨p6, hp6, h⟩ := h
  split at h
  · rename_i hcond
    injection h with h2
    subst h2
    have hy := takeYear_bound (show takeYear cs = some (p1.1, p1.2) from hp1)
    have hm := takeMonth_bound (show takeMonth r1 = some (p2.1, p2.2) from hp2)
    have hd := takeDay_bound (show takeDay r2 = some (p3.1, p3.2) from hp3)
    have hh := takeHour_bound (show takeHour r3 = some (p4.1, p4.2) from hp4)
    have hmi := takeMinSec_bound (show takeMinSec r4 = some (p5.1, p5.2) from hp5)
    have hs := takeMinSec_bound (show takeMinSec r5 = some (p6.1, p6.2) from hp6)
    exact ⟨hcond.2.1, hy, hm.1, hm.2, hd.1, hcond.2.2, hh, hmi, hs⟩
  · cases h

theorem parseTimestamp_sound {cs : List Char} {dt : DateTime}
    (h : parseTimestamp cs = some dt) : validDT dt :=
  strptime_sound h

theorem takeYear_pad {y : Nat} (hy : y ≤ 9999) (rest : List Char) :
    takeYear (digitChar (y / 1000) :: digitChar (y / 100) :: digitChar (y / 10) ::
      digitChar y :: rest) = some (y, rest) := by
  simp only [takeYear]
  rw [if_pos ⟨isD_digitChar _, isD_digitChar _, isD_digitChar _, isD_digitChar _⟩]
  rw [dval_digitChar, dval_digitChar, dval_digitChar, dval_digitChar]
  simp only [Option.some.injEq, Prod.mk.injEq]
  exact ⟨by omega, trivial⟩

theorem takeMonth_pad {m : Nat} (h1 : 1 ≤ m) (h2 : m ≤ 12) (rest : List Char) :
    takeMonth (digitChar (m / 10) :: digitChar m :: rest) = some (m, rest) := by
  interval_cases m <;> rfl

theorem takeDay_pad {d : Nat} (h1 : 1 ≤ d) (h2 : d ≤ 31) (rest : List Char) :
    takeDay (digitChar (d / 10) :: digitChar d :: rest) = some (d, rest) := by
  interval_cases d <;> rfl

theorem takeHour_pad {x : Nat} (h2 : x ≤ 23) (rest : List Char) :
    takeHour (digitChar (x / 10) :: digitChar x :: rest) = some (x, rest) := by
  interval_cases x <;> rfl

theorem takeMinSec_pad {x : Nat} (hx : x ≤ 59) (rest : List Char) :
    takeMinSec (digitChar (x / 10) :: digitChar x :: rest) = some (x, rest) := by
  simp only [takeMinSec]
  rw [if_pos (isD_digitChar _)]
  have ht := toNat_digitChar (x / 10)
  rw [if_pos ⟨by omega, isD_digitChar _⟩]
  rw [dval_digitChar, dval_digitChar]
  simp only [Option.some.injEq, Prod.mk.injEq]
  exact ⟨by omega, trivial⟩

theorem takeLit_self (ch : Char) (rest : List Char) :
    takeLit ch (ch :: rest) = some rest := by
  simp [takeLit]

theorem takeWs_space {c : Char} (hc : c.isWhitespace = false) (cs : List Char) :
    takeWs (' ' :: c :: cs) = some (c :: cs) := by
  simp only [takeWs]
  rw [if_pos (by decide)]
  simp [List.dropWhile_cons, hc]

theorem pyStrip_canonical (dt : DateTime) :
    pyStrip (canonicalYmdHms dt) = canonicalYmdHms dt := by
  unfold pyStrip canonicalYmdHms
  simp [List.dropWhile_cons, digitChar_not_ws]

/-- Re-parsing the canonical rendering of a valid timestamp gives it
back. -/
theorem strptime_canonical {dt : DateTime} (hv : validDT dt) :
    strptimeYmdHms (canonicalYmdHms dt) = some dt := by
  obtain ⟨h1, h2, h3, h4, h5, h6, h7, h8, h9⟩ := hv
  unfold canonicalYmdHms strptimeYmdHms
  rw [takeYear_pad h2]
  simp only [Option.some_bind]
  rw [takeLit_self]
  simp only [Option.some_bind]
  rw [takeMonth_pad h3 h4]
  simp only [Option.some_bind]
  rw [takeLit_self]
  simp only [Option.some_bind]
  have hd31 : dt.day ≤ 31 := by
    have := h6
    unfold daysInMonth at this
    split at this
    · split at this <;> omega
    · split at this <;> omega
  rw [takeDay_pad h5 hd31]
  simp only [Option.some_bind]
  rw [takeWs_space (digitChar_not_ws _)]
  simp only [Option.some_bind]
  rw [takeHour_pad h7]
  simp only [Option.some_bind]
  rw [takeLit_self]
  simp only [Option.some_bind]
  rw [takeMinSec_pad h8]
  simp only [Option.some_bind]
  rw [takeLit_self]
  simp only [Option.some_bind]
  rw [takeMinSec_pad h9]
  simp only [Option.some_bind]
  simp [h1, h6]

/-- Re-parsing the canonical rendering, via `parseTimestamp`. -/
theorem parseTimestamp_canonical {dt : DateTime} (hv : validDT dt) :
    parseTimestamp (canonicalYmdHms dt) = some dt := by
  unfold parseTimestamp
  rw [pyStrip_canonical]
  exact strptime_canonical hv

/-- The program's `strftime` output re-parses only when the year has
four digits (otherwise `%Y`'s unpadded year makes the re-parse fail). -/
theorem parseTimestamp_format {dt : DateTime} (hv : validDT dt) (hy : 1000 ≤ dt.year) :
    parseTimestamp (formatTimestamp dt) = some dt := by
  rw [formatTimestamp_eq_canonical hy]
  exact parseTimestamp_canonical hv

/-! ## `rebase_timestamp` (rebase_timestamps.py lines 27-46)

`datetime.strptime(original_ts_str.strip(), '%Y-%m-%d %H:%M:%S')`, then
`dt + day_offset` (a whole-day `timedelta`), then
`strftime('%Y-%m-%d %H:%M:%S')`.  CPython `datetime.__add__` computes
`o = toordinal + days` and raises `OverflowError` unless
`0 < o <= _MAXORDINAL`; any exception (parse failure or overflow) is
caught and the function returns `None`.
-/

def rebase_timestamp (ts : List Char) (k : Int) : Option (List Char) :=
  match parseTimestamp ts with
  | none => none
  | some dt =>
    if 0 < (toOrdinal dt.year dt.month dt.day : Int) + k ∧
        (toOrdinal dt.year dt.month dt.day : Int) + k ≤ (maxOrdinal : Int) then
      some (formatTimestamp
        ⟨(fromOrdinal ((toOrdinal dt.year dt.month dt.day : Int) + k).toNat).1,
         (fromOrdinal ((toOrdinal dt.year dt.month dt.day : Int) + k).toNat).2.1,
         (fromOrdinal ((toOrdinal dt.year dt.month dt.day : Int) + k).toNat).2.2,
         dt.hour, dt.minute, dt.second⟩)
    else none

/-- Characterization of a successful rebase: the output is the
`strftime` rendering of a valid timestamp whose ordinal is shifted by
exactly `k` and whose time-of-day fields are untouched; the rendering
re-parses when its year has four digits. -/
theorem rebase_timestamp_spec {ts : List Char} {dt : DateTime} (k : Int)
    (hp : parseTimestamp ts = some dt)
    (hr : 0 < (toOrdinal dt.year dt.month dt.day : Int) + k ∧
          (toOrdinal dt.year dt.month dt.day : Int) + k ≤ (maxOrdinal : Int)) :
    ∃ dt2, rebase_timestamp ts k = some (formatTimestamp dt2) ∧
      (1000 ≤ dt2.year → parseTimestamp (formatTimestamp dt2) = some dt2) ∧
      validDT dt2 ∧
      (toOrdinal dt2.year dt2.month dt2.day : Int) =
        (toOrdinal dt.year dt.month dt.day : Int) + k ∧
      dt2.hour = dt.hour ∧ dt2.minute = dt.minute ∧ dt2.second = dt.second := by
  have hvdt := parseTimestamp_sound hp
  obtain ⟨u1, u2, u3, u4, u5, u6, u7, u8, u9⟩ := hvdt
  unfold rebase_timestamp
  rw [hp]
  simp only [if_pos hr]
  obtain ⟨y2, m2, d2, heq⟩ :
      ∃ y2 m2 d2, fromOrdinal ((toOrdinal dt.year dt.month dt.day : Int) + k).toNat =
        (y2, m2, d2) := ⟨_, _, _, rfl⟩
  have hn1 : 1 ≤ ((toOrdinal dt.year dt.month dt.day : Int) + k).toNat := by omega
  have hrt := toOrdinal_fromOrdinal _ y2 m2 d2 hn1 heq
  have hnmax : ((toOrdinal dt.year dt.month dt.day : Int) + k).toNat ≤ maxOrdinal := by
    have := hr.2
    omega
  have hymax : y2 ≤ 9999 := by
    refine @year_le_of_ordinal_le y2 m2 d2 hrt.2.2.2.2.1 ?_
    rw [hrt.1]
    exact hnmax
  have hv2 : validDT ⟨y2, m2, d2, dt.hour, dt.minute, dt.second⟩ :=
    ⟨hrt.2.1, hymax, hrt.2.2.1, hrt.2.2.2.1, hrt.2.2.2.2.1, hrt.2.2.2.2.2, u7, u8, u9⟩
  refine ⟨⟨y2, m2, d2, dt.hour, dt.minute, dt.second⟩, ?_, ?_, hv2, ?_, rfl, rfl, rfl⟩
  · rw [heq]
  · intro hy
    exact parseTimestamp_format hv2 hy
  · simp only
    rw [hrt.1]
    omega

/-- A rebased timestamp string is never the empty string (relevant for
Python truthiness of the returned value). -/
theorem rebase_timestamp_ne_nil {ts : List Char} {k : Int} {out : List Char}
    (h : rebase_timestamp ts k = some out) : out ≠ [] := by
  unfold rebase_timestamp at h
  split at h
  · cases h
  · split at h
    · injection h with h2
      subst h2
      exact formatTimestamp_ne_nil _
    · cases h

/-! ## Rows, files, and the scanner (`detect_date_range`, lines 48-80)

A CSV row (as produced by `csv.DictReader`) is modelled by its
`Timestamp` column value (`none` when the file has no `Timestamp`
column) and the remaining columns.  A file is `unreadable` (open raises),
`noHeader` (`reader.fieldnames is None`), or a list of rows.
`datetime.date` objects compare by their `(year, month, day)` fields.
-/

/-- A calendar date (`datetime.date`). -/
structure PyDate where
  year : Nat
  month : Nat
  day : Nat
deriving DecidableEq

/-- `date.__lt__`: lexicographic comparison of `(year, month, day)`. -/
def dateLT (a b : PyDate) : Bool :=
  decide (a.year < b.year ∨ (a.year = b.year ∧
    (a.month < b.month ∨ (a.month = b.month ∧ a.day < b.day))))

/-- `datetime.date()`. -/
def dtDate (dt : DateTime) : PyDate := ⟨dt.year, dt.month, dt.day⟩

/-- `date.toordinal()`. -/
def ordOf (d : PyDate) : Nat := toOrdinal d.year d.month d.day

theorem dateLT_irrefl (a : PyDate) : dateLT a a = false := by
  unfold dateLT
  rw [decide_eq_false_iff_not]
  omega

theorem dateLT_trans {a b c : PyDate} (h1 : dateLT a b = true) (h2 : dateLT b c = true) :
    dateLT a c = true := by
  unfold dateLT at h1 h2 ⊢
  rw [decide_eq_true_iff] at h1 h2 ⊢
  omega

/-- One CSV data row: the `Timestamp` column's value (if the column
exists) and all other columns verbatim. -/
structure Row where
  ts : Option (List Char)
  rest : List (List Char × List Char)
deriving DecidableEq

/-- The value assigned in the rebase loop (lines 104-108): the rebased
string if `rebase_timestamp` returned a truthy (non-None, non-empty)
string, otherwise nothing. -/
def rowShifted (k : Int) (r : Row) : Option (List Char) :=
  match r.ts with
  | none => none
  | some v =>
    match rebase_timestamp v k with
    | some t => if t ≠ [] then some t else none
    | none => none

/-- The row written by `writer.writerow(row)` (line 110): timestamp
replaced when rebased, everything else verbatim; the row itself is
written unconditionally. -/
def transformRow (k : Int) (r : Row) : Row :=
  match rowShifted k r with
  | some t => { r with ts := some t }
  | none => r

/-- Whether the row increments `rows_written` (line 108). -/
def rowRebases (k : Int) (r : Row) : Bool :=
  (rowShifted k r).isSome

/-- The date the scanner extracts from a row (lines 61-66): skip when the
`Timestamp` column is absent, parse, take `.date()`; failures are skipped. -/
def rowDate (r : Row) : Option PyDate :=
  match r.ts with
  | none => none
  | some v => (parseTimestamp v).map dtDate

/-- One iteration of the scan loop (lines 60-75): update running
minimum, maximum, and valid-row count. -/
def scanStep (acc : Option PyDate × Option PyDate × Nat) (r : Row) :
    Option PyDate × Option PyDate × Nat :=
  match rowDate r with
  | none => acc
  | some d =>
    (match acc.1 with
     | none => some d
     | some m => if dateLT d m then some d else some m,
     match acc.2.1 with
     | none => some d
     | some m => if dateLT m d then some d else some m,
     acc.2.2 + 1)

/-- Contents of one input file as seen by the rebaser/scanner. -/
inductive FileData where
  | unreadable
  | noHeader
  | rows (rs : List Row)
deriving DecidableEq

/-- `detect_date_range` (lines 48-80): `(min_date, max_date, count)`;
`(None, None, 0)` when the file cannot be read (or holds no rows). -/
def detect_date_range : FileData → Option PyDate × Option PyDate × Nat
  | .unreadable => (none, none, 0)
  | .noHeader => (none, none, 0)
  | .rows rs => rs.foldl scanStep (none, none, 0)

/-- The invariant carried by the scan loop over the dates seen so far. -/
def ScanInv (ds : List PyDate) (acc : Option PyDate × Option PyDate × Nat) : Prop :=
  acc.2.2 = ds.length ∧
  (acc.1 = none ↔ ds = []) ∧
  (acc.2.1 = none ↔ ds = []) ∧
  (∀ m, acc.1 = some m → m ∈ ds ∧ ∀ x ∈ ds, dateLT x m = false) ∧
  (∀ m, acc.2.1 = some m → m ∈ ds ∧ ∀ x ∈ ds, dateLT m x = false)

theorem scanStep_inv {ds : List PyDate} {acc : Option PyDate × Option PyDate × Nat}
    (r : Row) (h : ScanInv ds acc) :
    ScanInv (ds ++ (rowDate r).toList) (scanStep acc r) := by
  obtain ⟨mn, mx, c⟩ := acc
  obtain ⟨hc, hmnN, hmxN, hmnS, hmxS⟩ := h
  simp only at hc hmnN hmxN hmnS hmxS
  cases hr : rowDate r with
  | none =>
    simp only [scanStep, hr, Option.toList_none, List.append_nil]
    exact ⟨hc, hmnN, hmxN, hmnS, hmxS⟩
  | some d =>
    simp only [scanStep, hr, Option.toList_some]
    refine ⟨by simp only [List.length_append, List.length_cons, List.length_nil]; omega,
      ?_, ?_, ?_, ?_⟩
    · constructor
      · intro hco
        exact absurd hco (by
          cases mn with
          | none => simp
          | some m0 =>
            dsimp only
            split <;> simp)
      · intro hco
        simp at hco
    · constructor
      · intro hco
        exact absurd hco (by
          cases mx with
          | none => simp
          | some m0 =>
            dsimp only
            split <;> simp)
      · intro hco
        simp at hco
    · intro m hm
      cases hmn : mn with
      | none =>
        rw [hmn] at hm
        simp only at hm
        injection hm with hm
        subst hm
        have hds : ds = [] := hmnN.mp hmn
        subst hds
        refine ⟨by simp, ?_⟩
        intro x hx
        simp only [List.nil_append, List.mem_singleton] at hx
        subst hx
        exact dateLT_irrefl _
      | some m0 =>
        rw [hmn] at hm
        simp only at hm
        have hold := hmnS m0 hmn
        by_cases hlt : dateLT d m0 = true
        · rw [if_pos hlt] at hm
          injection hm with hm
          subst hm
          constructor
          · simp
          · intro x hx
            rcases List.mem_append.mp hx with hx1 | hx2
            · by_contra hxd
              rw [Bool.not_eq_false] at hxd
              have := dateLT_trans hxd hlt
              rw [hold.2 x hx1] at this
              cases this
            · simp only [List.mem_singleton] at hx2
              subst hx2
              exact dateLT_irrefl _
        · rw [if_neg hlt] at hm
          injection hm with hm
          subst hm
          constructor
          · exact List.mem_append.mpr (Or.inl hold.1)
          · intro x hx
            rcases List.mem_append.mp hx with hx1 | hx2
            · exact hold.2 x hx1
            · simp only [List.mem_singleton] at hx2
              subst hx2
              rw [Bool.not_eq_true] at hlt
              exact hlt
    · intro m hm
      cases hmx : mx with
      | none =>
        rw [hmx] at hm
        simp only at hm
        injection hm with hm
        subst hm
        have hds : ds = [] := hmxN.mp hmx
        subst hds
        refine ⟨by simp, ?_⟩
        intro x hx
        simp only [List.nil_append, List.mem_singleton] at hx
        subst hx
        exact dateLT_irrefl _
      | some m0 =>
        rw [hmx] at hm
        simp only at hm
        have hold := hmxS m0 hmx
        by_cases hlt : dateLT m0 d = true
        · rw [if_pos hlt] at hm
          injection hm with hm
          subst hm
          constructor
          · simp
          · intro x hx
            rcases List.mem_append.mp hx with hx1 | hx2
            · by_contra hxd
              rw [Bool.not_eq_false] at hxd
              have := dateLT_trans hlt hxd
              rw [hold.2 x hx1] at this
              cases this
            · simp only [List.mem_singleton] at hx2
              subst hx2
              exact dateLT_irrefl _
        · rw [if_neg hlt] at hm
          injection hm with hm
          subst hm
          constructor
          · exact List.mem_append.mpr (Or.inl hold.1)
          · intro x hx
            rcases List.mem_append.mp hx with hx1 | hx2
            · exact hold.2 x hx1
            · simp only [List.mem_singleton] at hx2
              subst hx2
              rw [Bool.not_eq_true] at hlt
              exact hlt

theorem scan_foldl_inv :
    ∀ (rs : List Row) (ds : List PyDate) (acc : Option PyDate × Option PyDate × Nat),
      ScanInv ds acc →
      ScanInv (ds ++ rs.filterMap rowDate) (rs.foldl scanStep acc) := by
  intro rs
  induction rs with
  | nil => intro ds acc h; simpa using h
  | cons r rs ih =>
    intro ds acc h
    have h1 := scanStep_inv r h
    have h2 := ih (ds ++ (rowDate r).toList) (scanStep acc r) h1
    rw [List.foldl_cons]
    cases hr : rowDate r with
    | none =>
      rw [hr] at h2
      simpa [List.filterMap_cons, hr] using h2
    | some d =>
      rw [hr] at h2
      simpa [List.filterMap_cons, hr] using h2

/-- Full characterization of the scanner on a readable file. -/
theorem detect_date_range_spec (rs : List Row) :
    ScanInv (rs.filterMap rowDate) (detect_date_range (FileData.rows rs)) := by
  have hbase : ScanInv [] (none, none, 0) := by
    refine ⟨rfl, by simp, by simp, ?_, ?_⟩
    · intro m hm; cases hm
    · intro m hm; cases hm
  have := scan_foldl_inv rs [] (none, none, 0) hbase
  simpa [detect_date_range] using this

/-! ## The file rebaser (`rebase_csv_file`, lines 82-123)

The function writes to `output_path + '.tmp'`, streams every row through
the rebase (writing each row exactly once), then removes any existing
file at `output_path` (line 113-114) and renames the temporary file onto
it (line 115).  On an exception the handler removes the temporary file
and returns `False` (lines 119-123).  We model the filesystem state at
the two paths and the exact sequence of effectful steps; `fault = some j`
means step `j` raises an I/O error instead of executing.
-/

/-- What the destination path holds: the pre-existing file or a
completed rebased file. -/
inductive OutContent where
  | old
  | new (rs : List Row)
deriving DecidableEq

/-- Filesystem state at the two paths used by `rebase_csv_file`:
`out` = `output_path`, `tmp` = `output_path + '.tmp'` (rows written so
far, header implicit). -/
structure FS where
  out : Option OutContent
  tmp : Option (List Row)
deriving DecidableEq

/-- The effectful steps of `rebase_csv_file` in program order. -/
inductive Step where
  | openInput
  | openTmp
  | writeHeader
  | writeRow (r : Row)
  | removeOut
  | moveTmp
deriving DecidableEq

/-- The step sequence for a file with rows `rs`: open both files, write
the header, write every row, then `os.remove(output_path)` when it
exists, then `shutil.move` (a same-directory rename). -/
def stepsFor (rs : List Row) (o0 : Option OutContent) : List Step :=
  Step.openInput :: Step.openTmp :: Step.writeHeader :: rs.map Step.writeRow
    ++ (if o0.isSome then [Step.removeOut] else []) ++ [Step.moveTmp]

/-- Effect of one step on the filesystem state. -/
def execStep (k : Int) (fs : FS) : Step → FS
  | .openInput => fs
  | .openTmp => { fs with tmp := some [] }
  | .writeHeader => fs
  | .writeRow r => { fs with tmp := fs.tmp.map (fun l => l ++ [transformRow k r]) }
  | .removeOut => { fs with out := none }
  | .moveTmp => ⟨some (OutContent.new (fs.tmp.getD [])), none⟩

/-- Run the steps from index `i`; a fault at the current index models an
exception: the handler deletes the temporary file and the function
returns `False`.  Result: final state, completion flag, and the trace of
states after each executed step (including the handler's cleanup). -/
def runSteps (k : Int) : List Step → FS → Nat → Option Nat → FS × Bool × List FS
  | [], fs, _, _ => (fs, true, [])
  | s :: ss, fs, i, fault =>
    if fault = some i then
      ({ fs with tmp := none }, false, [{ fs with tmp := none }])
    else
      ((runSteps k ss (execStep k fs s) (i + 1) fault).1,
       (runSteps k ss (execStep k fs s) (i + 1) fault).2.1,
       execStep k fs s :: (runSteps k ss (execStep k fs s) (i + 1) fault).2.2)

/-- `rebase_csv_file(input, output, day_offset)` on a file in state
`fd`, destination initially `o0`.  `unreadable`: `open(input)` raises,
the handler finds no temporary file, returns `False`.  `noHeader`:
`reader.fieldnames is None`, returns `False` from inside the `with`
block — note the created (empty) temporary file is left behind.
Otherwise the steps run; on completion the function returns
`rows_written > 0`. -/
def rebaseRunFile (fd : FileData) (o0 : Option OutContent) (k : Int) (fault : Option Nat) :
    FS × Bool × List FS :=
  match fd with
  | .unreadable => (⟨o0, none⟩, false, [⟨o0, none⟩])
  | .noHeader => (⟨o0, some []⟩, false, [⟨o0, none⟩, ⟨o0, some []⟩])
  | .rows rs =>
    ((runSteps k (stepsFor rs o0) ⟨o0, none⟩ 0 fault).1,
     (runSteps k (stepsFor rs o0) ⟨o0, none⟩ 0 fault).2.1 &&
       decide (0 < rs.countP (rowRebases k)),
     ⟨o0, none⟩ :: (runSteps k (stepsFor rs o0) ⟨o0, none⟩ 0 fault).2.2)

theorem runSteps_no_fault (k : Int) :
    ∀ (ss : List Step) (fs : FS) (i : Nat),
      (runSteps k ss fs i none).1 = ss.foldl (execStep k) fs ∧
      (runSteps k ss fs i none).2.1 = true := by
  intro ss
  induction ss with
  | nil => intro fs i; exact ⟨rfl, rfl⟩
  | cons s ss ih =>
    intro fs i
    unfold runSteps
    rw [if_neg (by simp)]
    exact ⟨(ih (execStep k fs s) (i + 1)).1, (ih (execStep k fs s) (i + 1)).2⟩

theorem foldl_writeRows (k : Int) :
    ∀ (rs : List Row) (o : Option OutContent) (acc : List Row),
      (rs.map Step.writeRow).foldl (execStep k) ⟨o, some acc⟩ =
        ⟨o, some (acc ++ rs.map (transformRow k))⟩ := by
  intro rs
  induction rs with
  | nil => intro o acc; simp
  | cons r rs ih =>
    intro o acc
    simp only [List.map_cons, List.foldl_cons]
    have hstep : execStep k ⟨o, some acc⟩ (Step.writeRow r) =
        ⟨o, some (acc ++ [transformRow k r])⟩ := rfl
    rw [hstep, ih]
    simp

/-- The complete fault-free execution of the step list. -/
theorem stepsFor_foldl (k : Int) (rs : List Row) (o0 : Option OutContent) :
    (stepsFor rs o0).foldl (execStep k) ⟨o0, none⟩ =
      ⟨some (OutContent.new (rs.map (transformRow k))), none⟩ := by
  unfold stepsFor
  simp only [List.foldl_cons, List.foldl_append]
  have h3 : execStep k (execStep k (execStep k ⟨o0, none⟩ Step.openInput) Step.openTmp)
      Step.writeHeader = ⟨o0, some []⟩ := rfl
  rw [h3, foldl_writeRows]
  cases o0 with
  | none => rfl
  | some c => rfl

/-- Fault-free run: destination receives the complete transformed file,
and the success flag is exactly `rows_written > 0`. -/
theorem rebaseRunFile_complete (k : Int) (rs : List Row) (o0 : Option OutContent) :
    (rebaseRunFile (FileData.rows rs) o0 k none).1 =
      ⟨some (OutContent.new (rs.map (transformRow k))), none⟩ ∧
    (rebaseRunFile (FileData.rows rs) o0 k none).2.1 =
      decide (0 < rs.countP (rowRebases k)) := by
  have h := runSteps_no_fault k (stepsFor rs o0) ⟨o0, none⟩ 0
  unfold rebaseRunFile
  dsimp only
  rw [h.1, h.2, stepsFor_foldl]
  simp

theorem runSteps_fault (k : Int) :
    ∀ (ss : List Step) (fs : FS) (i j : Nat), i ≤ j → j < i + ss.length →
      (runSteps k ss fs i (some j)).1 =
        { (ss.take (j - i)).foldl (execStep k) fs with tmp := none } ∧
      (runSteps k ss fs i (some j)).2.1 = false := by
  intro ss
  induction ss with
  | nil => intro fs i j h1 h2; simp at h2; omega
  | cons s ss ih =>
    intro fs i j h1 h2
    unfold runSteps
    by_cases hij : j = i
    · subst hij
      rw [if_pos rfl]
      have : j - j = 0 := by omega
      rw [this]
      exact ⟨rfl, rfl⟩
    · rw [if_neg (by simp; omega)]
      have hrec := ih (execStep k fs s) (i + 1) j (by omega)
        (by simp at h2 ⊢; omega)
      have htake : (s :: ss).take (j - i) = s :: ss.take (j - (i + 1)) := by
        have hji : j - i = (j - (i + 1)) + 1 := by omega
        rw [hji]
        rfl
      rw [htake, List.foldl_cons]
      exact ⟨hrec.1, hrec.2⟩

theorem foldl_out_preserved (k : Int) :
    ∀ (ss : List Step) (fs : FS),
      (∀ s ∈ ss, s ≠ Step.removeOut ∧ s ≠ Step.moveTmp) →
      (ss.foldl (execStep k) fs).out = fs.out := by
  intro ss
  induction ss with
  | nil => intro fs _; rfl
  | cons s ss ih =>
    intro fs hmem
    rw [List.foldl_cons]
    have hs := hmem s (List.mem_cons_self s ss)
    have hrest : ∀ t ∈ ss, t ≠ Step.removeOut ∧ t ≠ Step.moveTmp :=
      fun t ht => hmem t (List.mem_cons_of_mem s ht)
    rw [ih (execStep k fs s) hrest]
    cases s with
    | openInput => rfl
    | openTmp => rfl
    | writeHeader => rfl
    | writeRow r => rfl
    | removeOut => exact absurd rfl hs.1
    | moveTmp => exact absurd rfl hs.2

theorem stepsFor_length (rs : List Row) (o0 : Option OutContent) :
    (stepsFor rs o0).length = 4 + rs.length + (if o0.isSome then 1 else 0) := by
  unfold stepsFor
  cases o0 <;> simp <;> omega

theorem stepsFor_eq (rs : List Row) (o0 : Option OutContent) :
    stepsFor rs o0 =
      (Step.openInput :: Step.openTmp :: Step.writeHeader :: rs.map Step.writeRow) ++
        ((if o0.isSome then [Step.removeOut] else []) ++ [Step.moveTmp]) := by
  unfold stepsFor
  simp

theorem stepsFor_take_no_out (rs : List Row) (o0 : Option OutContent) (j : Nat)
    (hj : j ≤ 3 + rs.length) :
    ∀ s ∈ (stepsFor rs o0).take j, s ≠ Step.removeOut ∧ s ≠ Step.moveTmp := by
  intro s hs
  rw [stepsFor_eq] at hs
  have hlen : j ≤ (Step.openInput :: Step.openTmp :: Step.writeHeader ::
      rs.map Step.writeRow).length := by
    simp only [List.length_cons, List.length_map]
    omega
  rw [List.take_append_of_le_length hlen] at hs
  have hs2 := List.mem_of_mem_take hs
  simp only [List.mem_cons] at hs2
  rcases hs2 with h | h | h | h
  · subst h; exact ⟨(by simp), (by simp)⟩
  · subst h; exact ⟨(by simp), (by simp)⟩
  · subst h; exact ⟨(by simp), (by simp)⟩
  · obtain ⟨r, _, hr⟩ := List.mem_map.mp h
    subst hr
    exact ⟨(by simp), (by simp)⟩

theorem FS_clear_tmp (x : FS) : ({ x with tmp := none } : FS) = ⟨x.out, none⟩ := rfl

/-- Every state in the trace of a run is the state after executing some
prefix of the steps, or such a state with the temporary file removed. -/
theorem runSteps_trace (k : Int) :
    ∀ (ss : List Step) (fs : FS) (i : Nat) (fault : Option Nat) (fs2 : FS),
      fs2 ∈ (runSteps k ss fs i fault).2.2 →
      ∃ j, fs2 = (ss.take j).foldl (execStep k) fs ∨
           fs2 = { (ss.take j).foldl (execStep k) fs with tmp := none } := by
  intro ss
  induction ss with
  | nil =>
    intro fs i fault fs2 h
    simp [runSteps] at h
  | cons s ss ih =>
    intro fs i fault fs2 h
    unfold runSteps at h
    by_cases hf : fault = some i
    · rw [if_pos hf] at h
      simp only [List.mem_singleton] at h
      subst h
      exact ⟨0, Or.inr rfl⟩
    · rw [if_neg hf] at h
      simp only [List.mem_cons] at h
      rcases h with h | h
      · subst h
        refine ⟨1, Or.inl ?_⟩
        rfl
      · obtain ⟨j, hj⟩ := ih (execStep k fs s) (i + 1) fault fs2 h
        refine ⟨j + 1, ?_⟩
        rw [List.take_succ_cons, List.foldl_cons]
        exact hj

/-- Executing the opening steps and all row writes. -/
theorem openAndRows_foldl (k : Int) (rs : List Row) (o : Option OutContent) :
    (Step.openInput :: Step.openTmp :: Step.writeHeader :: rs.map Step.writeRow).foldl
      (execStep k) ⟨o, none⟩ = ⟨o, some (rs.map (transformRow k))⟩ := by
  simp only [List.foldl_cons]
  have h3 : execStep k (execStep k (execStep k ⟨o, none⟩ Step.openInput) Step.openTmp)
      Step.writeHeader = ⟨o, some []⟩ := rfl
  rw [h3, foldl_writeRows]
  simp

/-- After any prefix of the steps, the destination path holds its prior
content, nothing, or the complete transformed file. -/
theorem stepsFor_take_out_states (k : Int) (rs : List Row) (o0 : Option OutContent) (j : Nat) :
    (((stepsFor rs o0).take j).foldl (execStep k) ⟨o0, none⟩).out = o0 ∨
    (((stepsFor rs o0).take j).foldl (execStep k) ⟨o0, none⟩).out = none ∨
    (((stepsFor rs o0).take j).foldl (execStep k) ⟨o0, none⟩).out =
      some (OutContent.new (rs.map (transformRow k))) := by
  by_cases hj : j ≤ 3 + rs.length
  · left
    exact foldl_out_preserved k _ _ (stepsFor_take_no_out rs o0 j hj)
  · by_cases hlen : (stepsFor rs o0).length ≤ j
    · rw [List.take_of_length_le hlen, stepsFor_foldl]
      right; right; rfl
    · have hlength := stepsFor_length rs o0
      cases ho0 : o0 with
      | none =>
        subst ho0
        simp at hlength
        omega
      | some c =>
        subst ho0
        simp at hlength
        have hj4 : j = 4 + rs.length := by
          omega
        right; left
        have hdec := stepsFor_eq rs (some c)
        have hio : (some c : Option OutContent).isSome = true := rfl
        rw [hio, if_pos rfl] at hdec
        have hXlen : (Step.openInput :: Step.openTmp :: Step.writeHeader ::
            rs.map Step.writeRow).length = 3 + rs.length := by
          simp
          omega
        have htake : (stepsFor rs (some c)).take j =
            (Step.openInput :: Step.openTmp :: Step.writeHeader :: rs.map Step.writeRow) ++
              [Step.removeOut] := by
          rw [hdec]
          have hj' : j = (Step.openInput :: Step.openTmp :: Step.writeHeader ::
              rs.map Step.writeRow).length + 1 := by
            rw [hXlen]
            omega
          rw [hj', List.take_append]
          simp
        rw [htake, List.foldl_append, openAndRows_foldl]
        rfl

/-- Amended atomicity: across every run (with or without a fault, and
whatever the prior content), the destination path only ever holds its
prior content, nothing, or the complete new content — never an
incomplete file. -/
theorem rebaseRunFile_out_states (k : Int) (fd : FileData) (o0 : Option OutContent)
    (fault : Option Nat) :
    ∀ fs2 ∈ (rebaseRunFile fd o0 k fault).2.2,
      fs2.out = o0 ∨ fs2.out = none ∨
      (∃ rs, fd = FileData.rows rs ∧
        fs2.out = some (OutContent.new (rs.map (transformRow k)))) := by
  intro fs2 h
  cases fd with
  | unreadable =>
    simp only [rebaseRunFile, List.mem_singleton] at h
    subst h
    left; rfl
  | noHeader =>
    simp only [rebaseRunFile, List.mem_cons, List.mem_singleton] at h
    rcases h with h | h | h
    · subst h; left; rfl
    · subst h; left; rfl
    · cases h
  | rows rs =>
    simp only [rebaseRunFile, List.mem_cons] at h
    rcases h with h | h
    · subst h; left; rfl
    · obtain ⟨j, hj⟩ := runSteps_trace k (stepsFor rs o0) ⟨o0, none⟩ 0 fault fs2 h
      have hout := stepsFor_take_out_states k rs o0 j
      rcases hj with hj | hj
      · subst hj
        rcases hout with h1 | h1 | h1
        · left; exact h1
        · right; left; exact h1
        · right; right; exact ⟨rs, rfl, h1⟩
      · subst hj
        rw [FS_clear_tmp]
        rcases hout with h1 | h1 | h1
        · left; exact h1
        · right; left; exact h1
        · right; right; exact ⟨rs, rfl, h1⟩

/-- An I/O error at any step strictly before the final rename leaves the
destination exactly as it was, removes the temporary file, and reports
failure. -/
theorem rebaseRunFile_fault (k : Int) (rs : List Row) (o0 : Option OutContent) (j : Nat)
    (hj : j + 2 ≤ (stepsFor rs o0).length) :
    (rebaseRunFile (FileData.rows rs) o0 k (some j)).1 = ⟨o0, none⟩ ∧
    (rebaseRunFile (FileData.rows rs) o0 k (some j)).2.1 = false := by
  have hlength := stepsFor_length rs o0
  have hja : j ≤ 3 + rs.length := by
    cases o0 with
    | none => simp at hlength; omega
    | some c => simp at hlength; omega
  have hr := runSteps_fault k (stepsFor rs o0) ⟨o0, none⟩ 0 j (by omega)
    (by omega)
  unfold rebaseRunFile
  dsimp only
  rw [hr.1, hr.2]
  refine ⟨?_, by simp⟩
  rw [Nat.sub_zero, FS_clear_tmp,
    foldl_out_preserved k _ _ (stepsFor_take_no_out rs o0 j hja)]

/-! ## The batch orchestrator (`rebase_directory`, lines 125-197)

The scan loop (lines 145-157) folds over all files; a file enters
`file_info` and updates the overall range only when its detected
`min_date` is truthy (`if min_dt:`).  A scanned range always has
`min_date` and `max_date` both present or both absent
(`detect_min_max_consistency`), so matching on both being present is
equivalent to the source's check.  After the scan, line 164 computes the
single `day_offset = today - min_date_overall` (a whole-day `timedelta`,
i.e. the difference of the two `toordinal` values) and the rebase phase
maps `rebase_csv_file` with that same offset over all files (lines
174-188; `ThreadPoolExecutor.map` yields per-file results in input
order).  `today` (`get_today_utc()`), the initial destination contents
and a per-file fault assignment are inputs of the model.
-/

structure BatchResult where
  total : Nat
  success : Nat
  failed : Nat
deriving DecidableEq

/-- One iteration of the scan loop (lines 145-157). -/
def scanStepDir
    (acc : Option PyDate × Option PyDate × Nat × List (String × PyDate × PyDate × Nat))
    (f : String × FileData) :
    Option PyDate × Option PyDate × Nat × List (String × PyDate × PyDate × Nat) :=
  match detect_date_range f.2 with
  | (some mn, some mx, c) =>
    (match acc.1 with
     | none => some mn
     | some m => if dateLT mn m then some mn else some m,
     match acc.2.1 with
     | none => some mx
     | some m => if dateLT m mx then some mx else some m,
     acc.2.2.1 + c,
     acc.2.2.2 ++ [(f.1, mn, mx, c)])
  | _ => acc

/-- The `file_info` entry a file contributes to the scan, if any. -/
def contributing (f : String × FileData) : Option (String × PyDate × PyDate × Nat) :=
  match detect_date_range f.2 with
  | (some mn, some mx, c) => some (f.1, mn, mx, c)
  | _ => none

/-- `day_offset = today - min_date_overall` (line 164): a whole-day
`timedelta` whose `days` is the difference of the ordinals. -/
def dayOffset (today mn : PyDate) : Int := (ordOf today : Int) - (ordOf mn : Int)

/-- The rebase phase (lines 174-188): every file is processed with the
single batch offset; results in input order. -/
def rebasePhase (k : Int) (initOut : String → Option OutContent)
    (fault : String → Option Nat) (files : List (String × FileData)) :
    List (String × FS × Bool) :=
  files.map (fun f => (f.1, (rebaseRunFile f.2 (initOut f.1) k (fault f.1)).1,
    (rebaseRunFile f.2 (initOut f.1) k (fault f.1)).2.1))

/-- `rebase_directory(input_dir, output_dir)`: full batch run.  Returns
the summary counts and, for each file processed by the rebase phase, the
final filesystem state at its destination path (the list is empty when
the batch stops before the rebase phase, in which case no destination
file is ever written). -/
def rebase_directory (today : PyDate) (files : List (String × FileData))
    (initOut : String → Option OutContent) (fault : String → Option Nat) :
    BatchResult × List (String × FS) :=
  if files.isEmpty then (⟨0, 0, 0⟩, [])
  else if (files.foldl scanStepDir (none, none, 0, [])).2.2.2.isEmpty then
    (⟨files.length, 0, files.length⟩, [])
  else
    (⟨files.length,
      (rebasePhase (dayOffset today
          (((files.foldl scanStepDir (none, none, 0, [])).1).getD today))
        initOut fault files).countP (fun x => x.2.2),
      (rebasePhase (dayOffset today
          (((files.foldl scanStepDir (none, none, 0, [])).1).getD today))
        initOut fault files).countP (fun x => !x.2.2)⟩,
     (rebasePhase (dayOffset today
          (((files.foldl scanStepDir (none, none, 0, [])).1).getD today))
        initOut fault files).map (fun x => (x.1, x.2.1)))

/-- A scanned file's detected min and max dates are both present or both
absent (justifying the paired match in `scanStepDir`). -/
theorem detect_min_max_consistency (fd : FileData) :
    (detect_date_range fd).1 = none ↔ (detect_date_range fd).2.1 = none := by
  cases fd with
  | unreadable => simp [detect_date_range]
  | noHeader => simp [detect_date_range]
  | rows rs =>
    have h := detect_date_range_spec rs
    rw [h.2.1, h.2.2.1]

/-- Invariant of the directory scan fold over the contributions seen so
far. -/
def DirInv (es : List (String × PyDate × PyDate × Nat))
    (acc : Option PyDate × Option PyDate × Nat × List (String × PyDate × PyDate × Nat)) :
    Prop :=
  acc.2.2.2 = es ∧
  (acc.1 = none ↔ es = []) ∧
  (∀ m, acc.1 = some m →
    (∃ e ∈ es, e.2.1 = m) ∧ ∀ e ∈ es, dateLT e.2.1 m = false)

theorem dirStep_inv {es : List (String × PyDate × PyDate × Nat)}
    {acc : Option PyDate × Option PyDate × Nat × List (String × PyDate × PyDate × Nat)}
    (f : String × FileData) (h : DirInv es acc) :
    DirInv (es ++ (contributing f).toList) (scanStepDir acc f) := by
  obtain ⟨mnO, mxO, tot, infos⟩ := acc
  obtain ⟨hinfos, hnone, hsome⟩ := h
  simp only at hinfos hnone hsome
  unfold scanStepDir contributing
  cases hd : detect_date_range f.2 with
  | mk o1 rest =>
    obtain ⟨o2, c⟩ := rest
    cases o1 with
    | none =>
      simp only [Option.toList_none, List.append_nil]
      exact ⟨hinfos, hnone, hsome⟩
    | some mn =>
      cases o2 with
      | none =>
        simp only [Option.toList_none, List.append_nil]
        exact ⟨hinfos, hnone, hsome⟩
      | some mx =>
        simp only [Option.toList_some]
        refine ⟨by rw [hinfos], ?_, ?_⟩
        · constructor
          · intro hco
            exact absurd hco (by
              cases mnO with
              | none => simp
              | some m0 =>
                dsimp only
                split <;> simp)
          · intro hco
            simp at hco
        · intro m hm
          cases hmn : mnO with
          | none =>
            rw [hmn] at hm
            simp only at hm
            injection hm with hm
            subst hm
            have hes : es = [] := hnone.mp hmn
            subst hes
            refine ⟨⟨(f.1, mn, mx, c), by simp⟩, ?_⟩
            intro e he
            simp only [List.nil_append, List.mem_singleton] at he
            subst he
            exact dateLT_irrefl _
          | some m0 =>
            rw [hmn] at hm
            simp only at hm
            have hold := hsome m0 hmn
            by_cases hlt : dateLT mn m0 = true
            · rw [if_pos hlt] at hm
              injection hm with hm
              subst hm
              constructor
              · exact ⟨(f.1, mn, mx, c), by simp⟩
              · intro e he
                rcases List.mem_append.mp he with he1 | he2
                · by_contra hxd
                  rw [Bool.not_eq_false] at hxd
                  have := dateLT_trans hxd hlt
                  rw [hold.2 e he1] at this
                  cases this
                · simp only [List.mem_singleton] at he2
                  subst he2
                  exact dateLT_irrefl _
            · rw [if_neg hlt] at hm
              injection hm with hm
              subst hm
              obtain ⟨e0, he0, he0m⟩ := hold.1
              constructor
              · exact ⟨e0, List.mem_append.mpr (Or.inl he0), he0m⟩
              · intro e he
                rcases List.mem_append.mp he with he1 | he2
                · exact hold.2 e he1
                · simp only [List.mem_singleton] at he2
                  subst he2
                  simp only
                  rw [Bool.not_eq_true] at hlt
                  exact hlt

theorem dirScan_foldl_inv :
    ∀ (files : List (String × FileData)) (es : List (String × PyDate × PyDate × Nat))
      (acc : Option PyDate × Option PyDate × Nat × List (String × PyDate × PyDate × Nat)),
      DirInv es acc →
      DirInv (es ++ files.filterMap contributing) (files.foldl scanStepDir acc) := by
  intro files
  induction files with
  | nil => intro es acc h; simpa using h
  | cons f files ih =>
    intro es acc h
    have h1 := dirStep_inv f h
    have h2 := ih (es ++ (contributing f).toList) (scanStepDir acc f) h1
    rw [List.foldl_cons]
    cases hf : contributing f with
    | none =>
      rw [hf] at h2
      simpa [List.filterMap_cons, hf] using h2
    | some e =>
      rw [hf] at h2
      simpa [List.filterMap_cons, hf] using h2

/-- Characterization of the full directory scan. -/
theorem dirScan_spec (files : List (String × FileData)) :
    DirInv (files.filterMap contributing) (files.foldl scanStepDir (none, none, 0, [])) := by
  have hbase : DirInv [] (none, none, 0, []) := by
    refine ⟨rfl, by simp, ?_⟩
    intro m hm
    cases hm
  have := dirScan_foldl_inv files [] (none, none, 0, []) hbase
  simpa using this

theorem contributing_eq_some {f : String × FileData} {e : String × PyDate × PyDate × Nat} :
    contributing f = some e ↔
      ∃ mn mx c, detect_date_range f.2 = (some mn, some mx, c) ∧ e = (f.1, mn, mx, c) := by
  unfold contributing
  cases hd : detect_date_range f.2 with
  | mk o1 r =>
    obtain ⟨o2, c⟩ := r
    cases o1 with
    | none => simp
    | some mn =>
      cases o2 with
      | none => simp
      | some mx =>
        simp only [Option.some.injEq]
        constructor
        · intro h
          exact ⟨mn, mx, c, rfl, h.symm⟩
        · rintro ⟨mn2, mx2, c2, hd2, he⟩
          injection hd2 with hd2a hd2b
          injection hd2b with hd2b hd2c
          injection hd2a with hd2a
          injection hd2b with hd2b
          subst hd2a; subst hd2b; subst hd2c
          exact he.symm

theorem contributing_none_of_min_none {f : String × FileData}
    (h : (detect_date_range f.2).1 = none) : contributing f = none := by
  unfold contributing
  cases hd : detect_date_range f.2 with
  | mk o1 r =>
    obtain ⟨o2, c⟩ := r
    rw [hd] at h
    simp only at h
    subst h
    rfl

/-- When the scan found any usable date, the batch runs the rebase phase
on every file with the single computed offset. -/
theorem rebase_directory_phase (today : PyDate) (files : List (String × FileData))
    (initOut : String → Option OutContent) (fault : String → Option Nat)
    (hinfos : (files.foldl scanStepDir (none, none, 0, [])).2.2.2 ≠ []) :
    (rebase_directory today files initOut fault).2 =
      files.map (fun f => (f.1, (rebaseRunFile f.2 (initOut f.1)
        (dayOffset today (((files.foldl scanStepDir (none, none, 0, [])).1).getD today))
        (fault f.1)).1)) ∧
    (rebase_directory today files initOut fault).1.total = files.length := by
  have hfne : files ≠ [] := by
    intro hc
    subst hc
    exact hinfos rfl
  unfold rebase_directory
  rw [if_neg (by simp [hfne]), if_neg (by simp [hinfos])]
  constructor
  · unfold rebasePhase
    rw [List.map_map]
    rfl
  · rfl

theorem rebase_directory_abort (today : PyDate) (files : List (String × FileData))
    (initOut : String → Option OutContent) (fault : String → Option Nat)
    (hne : files ≠ [])
    (hnd : ∀ f ∈ files, (detect_date_range f.2).1 = none) :
    rebase_directory today files initOut fault = (⟨files.length, 0, files.length⟩, []) := by
  have hcontrib : files.filterMap contributing = [] := by
    rw [List.filterMap_eq_nil_iff]
    intro f hf
    exact contributing_none_of_min_none (hnd f hf)
  have hspec := dirScan_spec files
  have hinfos : (files.foldl scanStepDir (none, none, 0, [])).2.2.2 = [] := by
    rw [hspec.1, hcontrib]
  unfold rebase_directory
  rw [if_neg (by simp [hne]), if_pos (by simp [hinfos])]

/-- `countP p = 0` forces every row through unchanged. -/
theorem map_transformRow_of_no_rebase {k : Int} {rs : List Row}
    (h : rs.countP (rowRebases k) = 0) : rs.map (transformRow k) = rs := by
  induction rs with
  | nil => rfl
  | cons r rs ih =>
    rw [List.countP_cons] at h
    have hr : rowRebases k r = false := by
      by_cases hc : rowRebases k r = true
      · rw [hc] at h; simp at h
      · exact Bool.not_eq_true _ |>.mp hc
    have hrs : rs.countP (rowRebases k) = 0 := by
      by_cases hc : rowRebases k r = true
      · rw [hc] at h; simp at h
      · rw [Bool.not_eq_true] at hc
        rw [hc] at h
        simpa using h
    rw [List.map_cons, ih hrs]
    have hsh : rowShifted k r = none := by
      unfold rowRebases at hr
      exact Option.not_isSome_iff_eq_none.mp (by rw [hr]; simp)
    unfold transformRow
    rw [hsh]

/-! ## Claim theorems -/

/-- C2: for every file the rebaser processes to completion, the output
holds exactly one row per input row — rows whose timestamp cannot be
rebased are written through unmodified, never dropped. -/
theorem c2_row_count_preserved (rs : List Row) (o0 : Option OutContent) (k : Int) :
    ∃ outRs, (rebaseRunFile (FileData.rows rs) o0 k none).1.out =
        some (OutContent.new outRs) ∧
      outRs = rs.map (transformRow k) ∧
      outRs.length = rs.length ∧
      ∀ (i : Nat) (h1 : i < rs.length) (h2 : i < outRs.length),
        rowShifted k (rs.get ⟨i, h1⟩) = none → outRs.get ⟨i, h2⟩ = rs.get ⟨i, h1⟩ := by
  refine ⟨rs.map (transformRow k), ?_, rfl, by simp, ?_⟩
  · rw [(rebaseRunFile_complete k rs o0).1]
  · intro i h1 h2 hsh
    have hget : (rs.map (transformRow k)).get ⟨i, h2⟩ = transformRow k (rs.get ⟨i, h1⟩) := by
      simp [List.get_eq_getElem, List.getElem_map]
    rw [hget]
    unfold transformRow
    rw [hsh]

def wRowGood : Row := ⟨some (("0001-01-01 05:00:00").data), [((("value").data), (("1.5").data))]⟩

def wRowBad : Row := ⟨some (("not-a-timestamp").data), [((("value").data), (("2.5").data))]⟩

/-- Witness for C2 on a concrete two-row file (one malformed timestamp). -/
theorem c2_row_count_preserved_witness :
    ∃ outRs, (rebaseRunFile (FileData.rows [wRowGood, wRowBad]) none 1 none).1.out =
        some (OutContent.new outRs) ∧
      outRs = [wRowGood, wRowBad].map (transformRow 1) ∧
      outRs.length = [wRowGood, wRowBad].length ∧
      ∀ (i : Nat) (h1 : i < [wRowGood, wRowBad].length) (h2 : i < outRs.length),
        rowShifted 1 ([wRowGood, wRowBad].get ⟨i, h1⟩) = none →
          outRs.get ⟨i, h2⟩ = [wRowGood, wRowBad].get ⟨i, h1⟩ :=
  c2_row_count_preserved [wRowGood, wRowBad] none 1

/-- C3 (amended): at every intermediate point of any run, the
destination path holds its prior content, is absent, or holds the
complete new content — never a truncated file; a fault-free run ends
with the complete new content installed and the temporary file gone. -/
theorem c3_destination_never_truncated (fd : FileData) (o0 : Option OutContent) (k : Int)
    (fault : Option Nat) :
    (∀ fs2 ∈ (rebaseRunFile fd o0 k fault).2.2,
      fs2.out = o0 ∨ fs2.out = none ∨
      (∃ rs, fd = FileData.rows rs ∧
        fs2.out = some (OutContent.new (rs.map (transformRow k))))) ∧
    (∀ rs, fd = FileData.rows rs →
      (rebaseRunFile fd o0 k none).1 =
        ⟨some (OutContent.new (rs.map (transformRow k))), none⟩) := by
  constructor
  · exact rebaseRunFile_out_states k fd o0 fault
  · intro rs h
    subst h
    exact (rebaseRunFile_complete k rs o0).1

/-- Witness for C3 (amended) on a concrete one-row file over an existing
destination file, fault-free. -/
theorem c3_destination_never_truncated_witness :
    (∀ fs2 ∈ (rebaseRunFile (FileData.rows [wRowGood]) (some OutContent.old) 1 none).2.2,
      fs2.out = some OutContent.old ∨ fs2.out = none ∨
      (∃ rs, FileData.rows [wRowGood] = FileData.rows rs ∧
        fs2.out = some (OutContent.new (rs.map (transformRow 1))))) ∧
    (∀ rs, FileData.rows [wRowGood] = FileData.rows rs →
      (rebaseRunFile (FileData.rows [wRowGood]) (some OutContent.old) 1 none).1 =
        ⟨some (OutContent.new (rs.map (transformRow 1))), none⟩) :=
  c3_destination_never_truncated (FileData.rows [wRowGood]) (some OutContent.old) 1 none

/-- Counterexample to C3 as stated: with a pre-existing destination
file, the run passes through a state where the destination holds
neither its prior content nor the complete new content (it is absent,
between `os.remove(output_path)` and `shutil.move`). -/
theorem c3_destination_never_truncated_cex :
    ¬ (∀ fs2 ∈ (rebaseRunFile (FileData.rows [⟨none, []⟩])
        (some OutContent.old) 0 none).2.2,
        fs2.out = some OutContent.old ∨
        fs2.out = some (OutContent.new [⟨none, []⟩])) := by
  decide

/-- C4: an I/O error at any step strictly before the final rename leaves
the temporary file removed and the destination exactly as it was before
the call, the file is reported as failed, and the batch still processes
every file. -/
theorem c4_io_error_before_rename (rs : List Row) (o0 : Option OutContent) (k : Int)
    (j : Nat) (hj : j + 2 ≤ (stepsFor rs o0).length) :
    ((rebaseRunFile (FileData.rows rs) o0 k (some j)).1 = ⟨o0, none⟩ ∧
     (rebaseRunFile (FileData.rows rs) o0 k (some j)).2.1 = false) ∧
    ∀ (today : PyDate) (files : List (String × FileData))
      (initOut : String → Option OutContent) (fault : String → Option Nat),
      (files.foldl scanStepDir (none, none, 0, [])).2.2.2 ≠ [] →
      (rebase_directory today files initOut fault).2.length = files.length ∧
      (rebase_directory today files initOut fault).1.total = files.length := by
  refine ⟨rebaseRunFile_fault k rs o0 j hj, ?_⟩
  intro today files initOut fault hinf
  have h := rebase_directory_phase today files initOut fault hinf
  rw [h.1]
  exact ⟨by simp, h.2⟩

/-- Witness for C4: fault while writing the header of a one-row file
whose destination already exists. -/
theorem c4_io_error_before_rename_witness :
    (2 + 2 ≤ (stepsFor [wRowGood] (some OutContent.old)).length) ∧
    (((rebaseRunFile (FileData.rows [wRowGood]) (some OutContent.old) 1 (some 2)).1 =
        ⟨some OutContent.old, none⟩ ∧
      (rebaseRunFile (FileData.rows [wRowGood]) (some OutContent.old) 1 (some 2)).2.1 =
        false) ∧
     ∀ (today : PyDate) (files : List (String × FileData))
       (initOut : String → Option OutContent) (fault : String → Option Nat),
       (files.foldl scanStepDir (none, none, 0, [])).2.2.2 ≠ [] →
       (rebase_directory today files initOut fault).2.length = files.length ∧
       (rebase_directory today files initOut fault).1.total = files.length) :=
  ⟨by decide, c4_io_error_before_rename [wRowGood] (some OutContent.old) 1 2 (by decide)⟩

/-- C5: when no file in the batch yields any valid date, the batch
terminates with the "no dates detected" failure report before the
rebase phase and writes nothing: no destination file exists after the
run. -/
theorem c5_no_dates_abort (today : PyDate) (files : List (String × FileData))
    (initOut : String → Option OutContent) (fault : String → Option Nat)
    (hne : files ≠ [])
    (hnd : ∀ f ∈ files, (detect_date_range f.2).1 = none) :
    rebase_directory today files initOut fault = (⟨files.length, 0, files.length⟩, []) :=
  rebase_directory_abort today files initOut fault hne hnd

/-- Witness for C5 (Scenario D): every file fails to open. -/
theorem c5_no_dates_abort_witness :
    ([(("a"), FileData.unreadable), (("b"), FileData.unreadable)] ≠
      ([] : List (String × FileData))) ∧
    (∀ f ∈ [(("a"), FileData.unreadable), (("b"), FileData.unreadable)],
      (detect_date_range f.2).1 = none) ∧
    rebase_directory ⟨1, 1, 2⟩ [(("a"), FileData.unreadable), (("b"), FileData.unreadable)]
      (fun _ => none) (fun _ => none) = (⟨2, 0, 2⟩, []) :=
  ⟨by decide, by decide,
    c5_no_dates_abort ⟨1, 1, 2⟩ _ (fun _ => none) (fun _ => none) (by decide) (by decide)⟩

/-- C6 (amended): for every timestamp that parses and every integer day
offset whose shifted date stays within the representable calendar range
(years 1-9999), the rebased output is the `strftime` rendering of a
valid timestamp with the time-of-day unchanged and the date moved by
exactly the offset (so carries across month, year and leap-year
boundaries are exact); that rendering re-parses whenever its year has
four digits (`%Y` emits years below 1000 unpadded). -/
theorem c6_shift_preserves_time_of_day (v : List Char) (dt : DateTime) (k : Int)
    (hp : parseTimestamp v = some dt)
    (hr : 0 < (toOrdinal dt.year dt.month dt.day : Int) + k ∧
          (toOrdinal dt.year dt.month dt.day : Int) + k ≤ (maxOrdinal : Int)) :
    ∃ dt2, rebase_timestamp v k = some (formatTimestamp dt2) ∧ validDT dt2 ∧
      dt2.hour = dt.hour ∧ dt2.minute = dt.minute ∧ dt2.second = dt.second ∧
      (toOrdinal dt2.year dt2.month dt2.day : Int) =
        (toOrdinal dt.year dt.month dt.day : Int) + k ∧
      (1000 ≤ dt2.year → parseTimestamp (formatTimestamp dt2) = some dt2) := by
  obtain ⟨dt2, h1, h2, h3, h4, h5, h6, h7⟩ := rebase_timestamp_spec k hp hr
  exact ⟨dt2, h1, h3, h5, h6, h7, h4, h2⟩

/-- Witness for C6 (amended): carrying across a leap-year February
boundary (year 4 is a leap year); the concrete output is the unpadded
string the program actually emits. -/
theorem c6_shift_preserves_time_of_day_witness :
    (parseTimestamp (("0004-02-28 23:59:59").data) = some ⟨4, 2, 28, 23, 59, 59⟩) ∧
    (0 < (toOrdinal 4 2 28 : Int) + 1 ∧
      (toOrdinal 4 2 28 : Int) + 1 ≤ (maxOrdinal : Int)) ∧
    (∃ dt2, rebase_timestamp (("0004-02-28 23:59:59").data) 1 =
        some (formatTimestamp dt2) ∧ validDT dt2 ∧
      dt2.hour = 23 ∧ dt2.minute = 59 ∧ dt2.second = 59 ∧
      (toOrdinal dt2.year dt2.month dt2.day : Int) = (toOrdinal 4 2 28 : Int) + 1 ∧
      (1000 ≤ dt2.year → parseTimestamp (formatTimestamp dt2) = some dt2)) ∧
    rebase_timestamp (("0004-02-28 23:59:59").data) 1 =
      some (("4-02-29 23:59:59").data) :=
  ⟨by decide, ⟨by decide, by decide⟩,
    c6_shift_preserves_time_of_day (("0004-02-28 23:59:59").data)
      ⟨4, 2, 28, 23, 59, 59⟩ 1 (by decide) ⟨by decide, by decide⟩,
    by decide⟩

/-- Counterexample to C6 as stated: the timestamp parses, but shifting
9999-12-31 by +1 day overflows the representable range, so the code
reports an error (`None`) instead of carrying the date. -/
theorem c6_shift_preserves_time_of_day_cex :
    parseTimestamp (("9999-12-31 00:00:00").data) = some ⟨9999, 12, 31, 0, 0, 0⟩ ∧
    rebase_timestamp (("9999-12-31 00:00:00").data) 1 = none := by
  constructor
  · decide
  · unfold rebase_timestamp
    rw [show parseTimestamp (("9999-12-31 00:00:00").data) =
      some ⟨9999, 12, 31, 0, 0, 0⟩ from by decide]
    dsimp only
    rw [if_neg]
    intro hc
    have h1 : toOrdinal 9999 12 31 = 3652059 := by decide
    have h2 := hc.2
    rw [h1] at h2
    unfold maxOrdinal at h2
    omega

/-- C7 (amended): parsing accepts every canonical `YYYY-MM-DD HH:MM:SS`
(zero-padded) rendering of a valid timestamp, and everything it accepts
is a valid calendar timestamp (invalid dates such as month 13 are
rejected); but field widths are lenient, see the counterexample. -/
theorem c7_parse_canonical_sound :
    (∀ dt : DateTime, validDT dt → parseTimestamp (canonicalYmdHms dt) = some dt) ∧
    (∀ (cs : List Char) (dt : DateTime), parseTimestamp cs = some dt → validDT dt) :=
  ⟨fun _ hv => parseTimestamp_canonical hv, fun _ _ h => parseTimestamp_sound h⟩

/-- Witness for C7 (amended) at a concrete valid timestamp. -/
theorem c7_parse_canonical_sound_witness :
    validDT ⟨2025, 6, 1, 12, 30, 59⟩ ∧
    parseTimestamp (canonicalYmdHms ⟨2025, 6, 1, 12, 30, 59⟩) =
      some ⟨2025, 6, 1, 12, 30, 59⟩ :=
  ⟨by decide, c7_parse_canonical_sound.1 ⟨2025, 6, 1, 12, 30, 59⟩ (by decide)⟩

/-- Counterexample to C7 as stated: a non-canonical field width (month
written as `1` instead of `01`) is accepted by the parser — CPython
`strptime`'s `%m` pattern is `1[0-2]|0[1-9]|[1-9]` — where the claim
requires a parse failure. -/
theorem c7_parse_canonical_sound_cex :
    parseTimestamp (("2025-1-01 16:00:00").data) = some ⟨2025, 1, 1, 16, 0, 0⟩ := by
  decide

/-- C9 (amended): formatting inverts parsing for values whose year has
four digits — for every string that parses to a timestamp with year ≥
1000, formatting the parsed value and re-parsing reproduces it exactly
(hence `parse(format(parse(s))) = parse(s)` there).  For years 1-999,
`strftime`'s `%Y` emits the year unpadded and the output fails to
re-parse — see the counterexample. -/
theorem c9_parse_format_roundtrip (cs : List Char) (dt : DateTime)
    (h : parseTimestamp cs = some dt) (hy : 1000 ≤ dt.year) :
    parseTimestamp (formatTimestamp dt) = some dt :=
  parseTimestamp_format (parseTimestamp_sound h) hy

/-- Counterexample to C9 as stated: `0004-01-01 00:00:00` parses, but
the program formats the parsed value as `4-01-01 00:00:00` (unpadded
`%Y`, as the platform `strftime` emits it), which fails to re-parse, so
`parse(format(parse(s)))` is an error rather than `parse(s)`. -/
theorem c9_parse_format_roundtrip_cex :
    parseTimestamp (("0004-01-01 00:00:00").data) = some ⟨4, 1, 1, 0, 0, 0⟩ ∧
    formatTimestamp ⟨4, 1, 1, 0, 0, 0⟩ = (("4-01-01 00:00:00").data) ∧
    parseTimestamp (("4-01-01 00:00:00").data) = none := by
  refine ⟨by decide, by decide, by decide⟩

/-- Witness for C9 on a concrete parseable string (with surrounding
whitespace stripped by the parse). -/
theorem c9_parse_format_roundtrip_witness :
    parseTimestamp ((" 2025-11-10 16:00:00 ").data) = some ⟨2025, 11, 10, 16, 0, 0⟩ ∧
    parseTimestamp (formatTimestamp ⟨2025, 11, 10, 16, 0, 0⟩) =
      some ⟨2025, 11, 10, 16, 0, 0⟩ :=
  ⟨by decide,
    c9_parse_format_roundtrip ((" 2025-11-10 16:00:00 ").data) ⟨2025, 11, 10, 16, 0, 0⟩
      (by decide) (by decide)⟩

/-- C8: the scanner's result is computed over exactly the rows whose
timestamp column is present and parseable: the count is the number of
such rows, and min/max are attained on and bound exactly that set;
malformed rows are skipped without aborting the scan. -/
theorem c8_scanner_counts_parseable (rs : List Row) :
    (detect_date_range (FileData.rows rs)).2.2 = (rs.filterMap rowDate).length ∧
    ((detect_date_range (FileData.rows rs)).1 = none ↔ rs.filterMap rowDate = []) ∧
    (∀ m, (detect_date_range (FileData.rows rs)).1 = some m →
      m ∈ rs.filterMap rowDate ∧ ∀ x ∈ rs.filterMap rowDate, dateLT x m = false) ∧
    (∀ m, (detect_date_range (FileData.rows rs)).2.1 = some m →
      m ∈ rs.filterMap rowDate ∧ ∀ x ∈ rs.filterMap rowDate, dateLT m x = false) := by
  have h := detect_date_range_spec rs
  exact ⟨h.1, h.2.1, h.2.2.2.1, h.2.2.2.2⟩

def c8good1 : Row := ⟨some (("0001-01-01 00:10:00").data), []⟩

def c8good2 : Row := ⟨some (("0001-01-02 08:00:00").data), []⟩

def c8bad : Row := ⟨some (("not-a-time").data), []⟩

def c8rows : List Row :=
  List.replicate 49 c8good1 ++ List.replicate 49 c8good2 ++ [c8bad, c8bad]

/-- Witness for C8 (Scenario C): 100 rows of which 2 are malformed give
`valid_count = 98`. -/
theorem c8_scanner_counts_parseable_witness :
    (c8rows.filterMap rowDate).length = 98 ∧
    (detect_date_range (FileData.rows c8rows)).2.2 = 98 :=
  ⟨by decide, by rw [(c8_scanner_counts_parseable c8rows).1]; decide⟩

/-- C10: once the batch reaches the rebase phase, every file (including
scanned-but-dateless ones) is handed to the rebaser with the single
batch offset; a completed per-file rebase reports success exactly when
at least one row was rebased, and a file with zero rebased rows still
gets its complete pass-through output written while being reported as
failed. -/
theorem c10_success_iff_rebased
    (today : PyDate) (files : List (String × FileData))
    (initOut : String → Option OutContent) (fault : String → Option Nat) (mn : PyDate)
    (hmn : (files.foldl scanStepDir (none, none, 0, [])).1 = some mn) :
    ((rebase_directory today files initOut fault).2 =
      files.map (fun f => (f.1, (rebaseRunFile f.2 (initOut f.1)
        (dayOffset today mn) (fault f.1)).1))) ∧
    (∀ (rs : List Row) (o0 : Option OutContent),
      ((rebaseRunFile (FileData.rows rs) o0 (dayOffset today mn) none).2.1 = true ↔
        0 < rs.countP (rowRebases (dayOffset today mn))) ∧
      (rs.countP (rowRebases (dayOffset today mn)) = 0 →
        (rebaseRunFile (FileData.rows rs) o0 (dayOffset today mn) none).1.out =
          some (OutContent.new rs))) := by
  have hs := dirScan_spec files
  have hinfos : (files.foldl scanStepDir (none, none, 0, [])).2.2.2 ≠ [] := by
    rw [hs.1]
    intro hc
    exact absurd (hs.2.1.mpr hc) (by rw [hmn]; simp)
  constructor
  · have hph := (rebase_directory_phase today files initOut fault hinfos).1
    rw [hmn] at hph
    simpa using hph
  · intro rs o0
    constructor
    · rw [(rebaseRunFile_complete (dayOffset today mn) rs o0).2]
      exact decide_eq_true_iff
    · intro hz
      rw [(rebaseRunFile_complete (dayOffset today mn) rs o0).1]
      rw [map_transformRow_of_no_rebase hz]

def c10good : Row := ⟨some (("0001-01-01 06:00:00").data), []⟩

def c10bad : Row := ⟨some (("oops").data), []⟩

def c10files : List (String × FileData) :=
  [(("a"), FileData.rows [c10good]), (("b"), FileData.rows [c10bad])]

/-- Witness for C10 on a batch with one dated and one dateless file: the
dateless file still gets a complete output but the report counts it as
failed (`success = 1`, `failed = 1`). -/
theorem c10_success_iff_rebased_witness :
    ((c10files.foldl scanStepDir (none, none, 0, [])).1 = some ⟨1, 1, 1⟩) ∧
    (((rebase_directory ⟨1, 1, 2⟩ c10files (fun _ => none) (fun _ => none)).2 =
      c10files.map (fun f => (f.1, (rebaseRunFile f.2 none
        (dayOffset ⟨1, 1, 2⟩ ⟨1, 1, 1⟩) none).1))) ∧
     (∀ (rs : List Row) (o0 : Option OutContent),
       ((rebaseRunFile (FileData.rows rs) o0 (dayOffset ⟨1, 1, 2⟩ ⟨1, 1, 1⟩) none).2.1 =
           true ↔
         0 < rs.countP (rowRebases (dayOffset ⟨1, 1, 2⟩ ⟨1, 1, 1⟩))) ∧
       (rs.countP (rowRebases (dayOffset ⟨1, 1, 2⟩ ⟨1, 1, 1⟩)) = 0 →
         (rebaseRunFile (FileData.rows rs) o0 (dayOffset ⟨1, 1, 2⟩ ⟨1, 1, 1⟩) none).1.out =
           some (OutContent.new rs)))) ∧
    (rebase_directory ⟨1, 1, 2⟩ c10files (fun _ => none) (fun _ => none)).1 =
      ⟨2, 1, 1⟩ :=
  ⟨by decide,
    c10_success_iff_rebased ⟨1, 1, 2⟩ c10files (fun _ => none) (fun _ => none)
      ⟨1, 1, 1⟩ (by decide),
    by decide⟩

theorem rowShifted_eq_some {k : Int} {r : Row} {v out : List Char}
    (hv : r.ts = some v) (hb : rebase_timestamp v k = some out) :
    rowShifted k r = some out := by
  obtain ⟨ts, rest⟩ := r
  simp only at hv
  subst hv
  unfold rowShifted
  dsimp only
  rw [hb]
  dsimp only
  rw [if_pos (rebase_timestamp_ne_nil hb)]

/-- C1 (amended): the batch computes exactly one day offset — today
minus the least detected min-date over all scanned files — and hands
that same offset to the rebase of every file; consequently, for any two
rows of any two files in the batch whose timestamps parse and whose
shifted dates both stay within the representable range (years 1–9999),
the rebased outputs' dates still differ by exactly the original number
of days.  (A row whose shift would overflow is passed through unshifted,
which is what the counterexample exploits.) -/
theorem c1_single_offset_preserves_differences
    (today : PyDate) (files : List (String × FileData))
    (initOut : String → Option OutContent) (fault : String → Option Nat) (mn : PyDate)
    (n1 n2 : String) (rs1 rs2 : List Row) (r1 r2 : Row) (v1 v2 : List Char)
    (dt1 dt2 : DateTime)
    (hmn : (files.foldl scanStepDir (none, none, 0, [])).1 = some mn)
    (hf1 : (n1, FileData.rows rs1) ∈ files) (hf2 : (n2, FileData.rows rs2) ∈ files)
    (hr1 : r1 ∈ rs1) (hr2 : r2 ∈ rs2)
    (hv1 : r1.ts = some v1) (hv2 : r2.ts = some v2)
    (hp1 : parseTimestamp v1 = some dt1) (hp2 : parseTimestamp v2 = some dt2)
    (hin1 : 0 < (toOrdinal dt1.year dt1.month dt1.day : Int) + dayOffset today mn ∧
      (toOrdinal dt1.year dt1.month dt1.day : Int) + dayOffset today mn ≤
        (maxOrdinal : Int))
    (hin2 : 0 < (toOrdinal dt2.year dt2.month dt2.day : Int) + dayOffset today mn ∧
      (toOrdinal dt2.year dt2.month dt2.day : Int) + dayOffset today mn ≤
        (maxOrdinal : Int)) :
    ((∃ f ∈ files, ∃ mx c, detect_date_range f.2 = (some mn, some mx, c)) ∧
     (∀ f ∈ files, ∀ mn2 mx2 c2, detect_date_range f.2 = (some mn2, some mx2, c2) →
        dateLT mn2 mn = false) ∧
     (rebase_directory today files initOut fault).2 =
       files.map (fun f => (f.1, (rebaseRunFile f.2 (initOut f.1)
         (dayOffset today mn) (fault f.1)).1))) ∧
    (∃ dt1b dt2b,
      rowShifted (dayOffset today mn) r1 = some (formatTimestamp dt1b) ∧
      rowShifted (dayOffset today mn) r2 = some (formatTimestamp dt2b) ∧
      validDT dt1b ∧ validDT dt2b ∧
      (toOrdinal dt1b.year dt1b.month dt1b.day : Int) -
          (toOrdinal dt2b.year dt2b.month dt2b.day : Int) =
        (toOrdinal dt1.year dt1.month dt1.day : Int) -
          (toOrdinal dt2.year dt2.month dt2.day : Int)) := by
  have hs := dirScan_spec files
  have hchar := hs.2.2 mn hmn
  have hinfos : (files.foldl scanStepDir (none, none, 0, [])).2.2.2 ≠ [] := by
    rw [hs.1]
    intro hc
    exact absurd (hs.2.1.mpr hc) (by rw [hmn]; simp)
  constructor
  · refine ⟨?_, ?_, ?_⟩
    · obtain ⟨e, he, hem⟩ := hchar.1
      obtain ⟨f, hf, hcf⟩ := List.mem_filterMap.mp he
      obtain ⟨mn2, mx2, c2, hd, hee⟩ := contributing_eq_some.mp hcf
      subst hee
      simp only at hem
      subst hem
      exact ⟨f, hf, mx2, c2, hd⟩
    · intro f hf mn2 mx2 c2 hd
      have hcf : contributing f = some (f.1, mn2, mx2, c2) :=
        contributing_eq_some.mpr ⟨mn2, mx2, c2, hd, rfl⟩
      exact hchar.2 _ (List.mem_filterMap.mpr ⟨f, hf, hcf⟩)
    · have hph := (rebase_directory_phase today files initOut fault hinfos).1
      rw [hmn] at hph
      simpa using hph
  · obtain ⟨dt1b, hb1, _, hvb1, hob1, _, _, _⟩ :=
      rebase_timestamp_spec (dayOffset today mn) hp1 hin1
    obtain ⟨dt2b, hb2, _, hvb2, hob2, _, _, _⟩ :=
      rebase_timestamp_spec (dayOffset today mn) hp2 hin2
    refine ⟨dt1b, dt2b,
      rowShifted_eq_some hv1 hb1, rowShifted_eq_some hv2 hb2, hvb1, hvb2, ?_⟩
    omega

def c1wRow1 : Row := ⟨some (("0001-01-01 05:00:00").data), []⟩

def c1wRow2 : Row := ⟨some (("0001-01-02 07:30:00").data), []⟩

def c1wFiles : List (String × FileData) :=
  [(("fa"), FileData.rows [c1wRow1]), (("fb"), FileData.rows [c1wRow2])]

/-- Witness for C1 (amended) on a concrete two-file batch whose shifted
dates stay in range: the single offset is 2 days and the one-day gap
between the two files' rows is preserved. -/
theorem c1_single_offset_preserves_differences_witness :
    ((c1wFiles.foldl scanStepDir (none, none, 0, [])).1 = some ⟨1, 1, 1⟩) ∧
    (((∃ f ∈ c1wFiles, ∃ mx c, detect_date_range f.2 = (some ⟨1, 1, 1⟩, some mx, c)) ∧
      (∀ f ∈ c1wFiles, ∀ mn2 mx2 c2,
        detect_date_range f.2 = (some mn2, some mx2, c2) →
          dateLT mn2 ⟨1, 1, 1⟩ = false) ∧
      (rebase_directory ⟨1, 1, 3⟩ c1wFiles (fun _ => none) (fun _ => none)).2 =
        c1wFiles.map (fun f => (f.1, (rebaseRunFile f.2 none
          (dayOffset ⟨1, 1, 3⟩ ⟨1, 1, 1⟩) none).1))) ∧
     (∃ dt1b dt2b,
       rowShifted (dayOffset ⟨1, 1, 3⟩ ⟨1, 1, 1⟩) c1wRow1 = some (formatTimestamp dt1b) ∧
       rowShifted (dayOffset ⟨1, 1, 3⟩ ⟨1, 1, 1⟩) c1wRow2 = some (formatTimestamp dt2b) ∧
       validDT dt1b ∧ validDT dt2b ∧
       (toOrdinal dt1b.year dt1b.month dt1b.day : Int) -
           (toOrdinal dt2b.year dt2b.month dt2b.day : Int) =
         (toOrdinal 1 1 1 : Int) - (toOrdinal 1 1 2 : Int))) :=
  ⟨by decide,
    c1_single_offset_preserves_differences ⟨1, 1, 3⟩ c1wFiles (fun _ => none)
      (fun _ => none) ⟨1, 1, 1⟩ (("fa")) (("fb")) [c1wRow1] [c1wRow2] c1wRow1 c1wRow2
      (("0001-01-01 05:00:00").data) (("0001-01-02 07:30:00").data)
      ⟨1, 1, 1, 5, 0, 0⟩ ⟨1, 1, 2, 7, 30, 0⟩
      (by decide) (by decide) (by decide) (by decide) (by decide) (by decide) (by decide)
      (by decide) (by decide) ⟨by decide, by decide⟩ ⟨by decide, by decide⟩⟩

def c1xRowA : Row := ⟨some (("0001-01-01 00:00:00").data), []⟩

def c1xRowB : Row := ⟨some (("9999-12-31 23:00:00").data), []⟩

def c1xFiles : List (String × FileData) :=
  [(("a"), FileData.rows [c1xRowA]), (("b"), FileData.rows [c1xRowB])]

/-- Counterexample to C1 as stated: in a batch whose two files' dates
differ by 3652058 days, with today = 0001-01-02 the single offset is +1
day; the first file's row is shifted (the program writes the unpadded
rendering `1-01-02 00:00:00` of the date 0001-01-02) but the second
file's shift would overflow year 9999, so its row is passed through
unshifted, and the outputs' dates differ by 3652057 days, not
3652058. -/
theorem c1_single_offset_preserves_differences_cex :
    (rebase_directory ⟨1, 1, 2⟩ c1xFiles (fun _ => none) (fun _ => none)).2 =
      [(("a"), ⟨some (OutContent.new [⟨some (("1-01-02 00:00:00").data), []⟩]), none⟩),
       (("b"), ⟨some (OutContent.new [c1xRowB]), none⟩)] ∧
    rowDate c1xRowA = some ⟨1, 1, 1⟩ ∧
    rowDate c1xRowB = some ⟨9999, 12, 31⟩ ∧
    (("1-01-02 00:00:00").data) = formatTimestamp ⟨1, 1, 2, 0, 0, 0⟩ ∧
    ¬ ((ordOf ⟨9999, 12, 31⟩ : Int) - (ordOf ⟨1, 1, 2⟩ : Int) =
       (ordOf ⟨9999, 12, 31⟩ : Int) - (ordOf ⟨1, 1, 1⟩ : Int)) := by
  decide
